import Mathlib

/-!
Serial byte-stream engine of the STM32F7xx driver (`Src/serial.c`).

A shallow embedding of the two interrupt-driven serial ports of `serial.c`:
the ring buffers `rxbuf`/`txbuf` (first port) and `rxbuf2`/`txbuf2` (second
port), the foreground stream operations and the two interrupt routines.

Conventions of the embedding.

* `uint_fast16_t`/`uint32_t` indices are natural numbers; a `uint16_t` local
  is reduced modulo `65536` where the source assigns to it.
* `char` is the unsigned 8-bit type of the ARM EABI (the target of this
  driver): a conversion to `char` is `% 256`, and `(int16_t)data` is the
  non-negative integer `data`.
* Peripheral registers are fields of `USART_TypeDef`.  `ISR`, `RDR` and the
  value read back from `ICR` are presented by the hardware; reads of `RDR` and
  writes to `TDR`/`ICR` are recorded in the order performed.
* The realtime handler and the blocking callback are external collaborators:
  they act on an external state of type `W` and return a boolean; they do not
  touch the buffers.
* Every operation runs to completion without an interrupt being interleaved.
-/

namespace Serial

/-! ## Constants and helper macros -/

/-- Modelled from the spec: `ASCII_CAN`, the cancel sentinel `0x18`; its header is not under `src/`. -/
def ASCII_CAN : Nat := 0x18

/-- Modelled from the spec: receive-ready flag `RXNE` of `USART->ISR` (bit 5); the device header is not under `src/`. -/
def USART_ISR_RXNE : Nat := 0x20

/-- Modelled from the spec: transmit-ready flag `TXE` of `USART->ISR` (bit 7); the device header is not under `src/`. -/
def USART_ISR_TXE : Nat := 0x80

/-- Modelled from the spec: overrun flag `ORE` of `USART->ISR` (bit 3); the device header is not under `src/`. -/
def USART_ISR_ORE : Nat := 0x08

/-- Modelled from the spec: framing-error flag `FE` of `USART->ISR` (bit 1); the device header is not under `src/`. -/
def USART_ISR_FE : Nat := 0x02

/-- Modelled from the spec: transmission-complete flag `TC` of `USART->ISR` (bit 6); the device header is not under `src/`. -/
def USART_ISR_TC : Nat := 0x40

/-- Modelled from the spec: overrun clear flag `ORECF` of `USART->ICR` (bit 3); the device header is not under `src/`. -/
def USART_ICR_ORECF : Nat := 0x08

/-- Modelled from the spec: framing-error clear flag `FECF` of `USART->ICR` (bit 1); the device header is not under `src/`. -/
def USART_ICR_FECF : Nat := 0x02

/-- Modelled from the spec: USART enable bit `UE` of `USART->CR1` (bit 0); the device header is not under `src/`. -/
def USART_CR1_UE : Nat := 0x01

/-- Modelled from the spec: receiver enable bit `RE` of `USART->CR1` (bit 2); the device header is not under `src/`. -/
def USART_CR1_RE : Nat := 0x04

/-- Modelled from the spec: transmitter enable bit `TE` of `USART->CR1` (bit 3); the device header is not under `src/`. -/
def USART_CR1_TE : Nat := 0x08

/-- Modelled from the spec: receive-interrupt enable bit `RXNEIE` of `USART->CR1` (bit 5); the device header is not under `src/`. -/
def USART_CR1_RXNEIE : Nat := 0x20

/-- Modelled from the spec: transmit-interrupt enable bit `TXEIE` of `USART->CR1` (bit 7); the device header is not under `src/`. -/
def USART_CR1_TXEIE : Nat := 0x80

/-- Modelled from the spec: overrun-disable bit `OVRDIS` of `USART->CR3` (bit 12); the device header is not under `src/`. -/
def USART_CR3_OVRDIS : Nat := 0x1000

/-- Modelled from the spec: `BUFNEXT(p, buf)` is `(p + 1) & (N - 1)` for a buffer whose
`data` array has `N` slots; the macro's header is not under `src/`. -/
def BUFNEXT (N p : Nat) : Nat := (p + 1) &&& (N - 1)

/-- Modelled from the spec: `BUFCOUNT(head, tail, size)` is `head - tail` when
`head >= tail`, else `size - tail + head`; the macro's header is not under `src/`. -/
def BUFCOUNT (head tail size : Nat) : Nat :=
  if head ≥ tail then head - tail else size - tail + head

/-- The flag test `reg & mask` used as a C condition. -/
def flagSet (reg mask : Nat) : Bool := (reg &&& mask) != 0

/-- The update `reg &= ~mask` on a 32-bit register. -/
def clearMask (reg mask : Nat) : Nat := reg &&& (0xFFFFFFFF ^^^ mask)

/-- The array store `data[i] = v`. -/
def store (data : Nat → Nat) (i v : Nat) : Nat → Nat :=
  fun j => if j = i then v else data j

/-! ## Data model -/

/-- The receive ring buffer `stream_rx_buffer_t` (fields used by `serial.c`). -/
structure stream_rx_buffer_t where
  head : Nat
  tail : Nat
  overflow : Bool
  data : Nat → Nat

/-- The transmit ring buffer `stream_tx_buffer_t`. -/
structure stream_tx_buffer_t where
  head : Nat
  tail : Nat
  data : Nat → Nat

/-- The registers of one USART that `serial.c` touches, with the record of
the accesses that have a hardware side effect. -/
structure USART_TypeDef where
  CR1 : Nat
  CR3 : Nat
  BRR : Nat
  ISR : Nat
  RDR : Nat
  ICR : Nat
  rdrReads : Nat
  tdrWrites : List Nat
  icrWrites : List Nat

/-- The type `enqueue_realtime_command_ptr`: a handler receives a `char`,
acts on the external state and reports whether it consumed the byte. -/
abbrev enqueue_realtime_command_ptr (W : Type) := Nat → W → Bool × W

/-- The file-scope state of `serial.c` together with the two peripherals and
the external state `world` on which handler and callback act. -/
structure State (W : Type) where
  rxbuf : stream_rx_buffer_t
  txbuf : stream_tx_buffer_t
  enqueue_realtime_command : enqueue_realtime_command_ptr W
  rxbuf2 : stream_rx_buffer_t
  txbuf2 : stream_tx_buffer_t
  enqueue_realtime_command2 : enqueue_realtime_command_ptr W
  USART : USART_TypeDef
  UART2 : USART_TypeDef
  world : W

variable {W : Type}

/-! ## First port: foreground operations -/

/-- The function `serialRxFlush`. -/
def serialRxFlush (s : State W) : State W :=
  { s with rxbuf := { s.rxbuf with tail := s.rxbuf.head } }

/-- The function `serialRxCancel` (`N` is `RX_BUFFER_SIZE`). -/
def serialRxCancel (N : Nat) (s : State W) : State W :=
  let data := store s.rxbuf.data s.rxbuf.head ASCII_CAN
  let tail := s.rxbuf.head
  let head := BUFNEXT N s.rxbuf.head
  { s with rxbuf := { s.rxbuf with data := data, tail := tail, head := head } }

/-- The blocking loop of `serialPutC`:
`while(txbuf.tail == next_head) { if(!hal.stream_blocking_callback()) return false; }`.
The first component of the result is `false` when the function returns from
inside the loop; `none` means the loop is still spinning after `fuel` tests. -/
def serialPutC_wait (stream_blocking_callback : W → Bool × W) (next_head : Nat) :
    Nat → State W → Option (Bool × State W)
  | 0, _ => none
  | fuel + 1, s =>
    if s.txbuf.tail = next_head then
      let r := stream_blocking_callback s.world
      if r.1 then serialPutC_wait stream_blocking_callback next_head fuel { s with world := r.2 }
      else some (false, { s with world := r.2 })
    else some (true, s)

/-- The function `serialPutC` (`M` is `TX_BUFFER_SIZE`). -/
def serialPutC (M : Nat) (stream_blocking_callback : W → Bool × W) (fuel : Nat)
    (c : Nat) (s : State W) : Option (Bool × State W) :=
  let next_head := BUFNEXT M s.txbuf.head
  match serialPutC_wait stream_blocking_callback next_head fuel s with
  | none => none
  | some (false, s1) => some (false, s1)
  | some (true, s1) =>
    let s2 := { s1 with txbuf := { s1.txbuf with data := store s1.txbuf.data s1.txbuf.head (c % 256) } }
    let s3 := { s2 with txbuf := { s2.txbuf with head := next_head } }
    some (true, { s3 with USART := { s3.USART with CR1 := s3.USART.CR1 ||| USART_CR1_TXEIE } })

/-- The function `serialWriteS`; `s` is the memory at the pointer, read up to
the first NUL (the end of the list stands for the terminating NUL). The
result of `serialPutC` is discarded, as in the source. -/
def serialWriteS (M : Nat) (stream_blocking_callback : W → Bool × W) (fuel : Nat) :
    List Nat → State W → Option (State W)
  | [], st => some st
  | c :: rest, st =>
    if c % 256 = 0 then some st
    else
      match serialPutC M stream_blocking_callback fuel c st with
      | none => none
      | some r => serialWriteS M stream_blocking_callback fuel rest r.2

/-- The function `serialWrite`; `s` is the memory at the pointer (bytes past
the end of the list read as 0) and `length` the number of bytes to send. -/
def serialWrite (M : Nat) (stream_blocking_callback : W → Bool × W) (fuel : Nat) :
    List Nat → Nat → State W → Option (State W)
  | _, 0, st => some st
  | s, length + 1, st =>
    match serialPutC M stream_blocking_callback fuel (s.headD 0) st with
    | none => none
    | some r => serialWrite M stream_blocking_callback fuel s.tail length r.2

/-- The function `serialGetC` (`N` is `RX_BUFFER_SIZE`); the result is the
returned `int16_t` and the state afterwards. `char` being unsigned on this
target, `(int16_t)data` is the stored byte as a non-negative integer. -/
def serialGetC (N : Nat) (s : State W) : Int × State W :=
  let bptr := s.rxbuf.tail
  if bptr = s.rxbuf.head then (-1, s)
  else
    let data := s.rxbuf.data bptr
    ((data : Int), { s with rxbuf := { s.rxbuf with tail := BUFNEXT N bptr } })

/-- The function `serialSetBaudRate`. `div` stands for the library macro
`UART_DIV_SAMPLING16` and `pclk` for the value of `HAL_RCC_GetPCLK1Freq()`,
neither of which is under `src/`. -/
def serialSetBaudRate (div : Nat → Nat → Nat) (pclk : Nat) (baud_rate : Nat) (s : State W) :
    Bool × State W :=
  let u1 := { s.USART with CR1 := USART_CR1_RE ||| USART_CR1_TE }
  let u2 := { u1 with CR3 := USART_CR3_OVRDIS }
  let u3 := { u2 with BRR := div pclk baud_rate }
  let u4 := { u3 with CR1 := u3.CR1 ||| (USART_CR1_UE ||| USART_CR1_RXNEIE) }
  let s1 := { s with USART := u4 }
  let s2 := { s1 with rxbuf := { s1.rxbuf with tail := s1.rxbuf.head } }
  let s3 := { s2 with txbuf := { s2.txbuf with tail := s2.txbuf.head } }
  (true, s3)

/-- The function `serialRxFree` (`N` is `RX_BUFFER_SIZE`); `tail`, `head` and
the result are `uint16_t`. It reads the buffer and writes nothing. -/
def serialRxFree (N : Nat) (s : State W) : Nat :=
  let tail := s.rxbuf.tail % 65536
  let head := s.rxbuf.head % 65536
  (N - BUFCOUNT head tail N) % 65536

/-- The function `serialSuspendInput`. The helper `stream_rx_suspend` is not
under `src/` and is a parameter: it receives `rxbuf` and the flag, and returns
its boolean result and the buffer as it leaves it. -/
def serialSuspendInput (stream_rx_suspend : stream_rx_buffer_t → Bool → Bool × stream_rx_buffer_t)
    (suspend : Bool) (s : State W) : Bool × State W :=
  let r := stream_rx_suspend s.rxbuf suspend
  (r.1, { s with rxbuf := r.2 })

/-- The function `serialDisable`. -/
def serialDisable (disable : Bool) (s : State W) : Bool × State W :=
  if disable then
    (true, { s with USART := { s.USART with CR1 := clearMask s.USART.CR1 USART_CR1_RXNEIE } })
  else
    (true, { s with USART := { s.USART with CR1 := s.USART.CR1 ||| USART_CR1_RXNEIE } })

/-- The function `serialSetRtHandler`; the argument `none` is the null
pointer, which the test `if(handler)` turns away. -/
def serialSetRtHandler (handler : Option (enqueue_realtime_command_ptr W)) (s : State W) :
    enqueue_realtime_command_ptr W × State W :=
  let prev := s.enqueue_realtime_command
  match handler with
  | some h => (prev, { s with enqueue_realtime_command := h })
  | none => (prev, s)

/-- The function `serialInit`, as far as the modelled state goes: the clock,
pin and interrupt-controller calls are made to the platform library and touch
none of it, so what remains is the call `serialSetBaudRate(baud_rate)`. -/
def serialInit (div : Nat → Nat → Nat) (pclk : Nat) (baud_rate : Nat) (s : State W) : State W :=
  (serialSetBaudRate div pclk baud_rate s).2

/-! ## First port: interrupt routine -/

/-- The receive-ready block of `USART_IRQHandler` (lines 251-262). -/
def USART_IRQHandler_rx (N : Nat) (s : State W) : State W :=
  if flagSet s.USART.ISR USART_ISR_RXNE then
    let data := s.USART.RDR % 256
    let s1 := { s with USART := { s.USART with rdrReads := s.USART.rdrReads + 1 } }
    let r := s1.enqueue_realtime_command data s1.world
    let s2 := { s1 with world := r.2 }
    if !r.1 then
      let next_head := BUFNEXT N s2.rxbuf.head
      if s2.rxbuf.tail = next_head then
        { s2 with rxbuf := { s2.rxbuf with overflow := true } }
      else
        let s3 := { s2 with rxbuf := { s2.rxbuf with data := store s2.rxbuf.data s2.rxbuf.head data } }
        { s3 with rxbuf := { s3.rxbuf with head := next_head } }
    else s2
  else s

/-- The transmit-ready block of `USART_IRQHandler` (lines 264-269). -/
def USART_IRQHandler_tx (M : Nat) (s : State W) : State W :=
  if flagSet s.USART.ISR USART_ISR_TXE && flagSet s.USART.CR1 USART_CR1_TXEIE then
    let s1 := { s with USART := { s.USART with tdrWrites := s.USART.tdrWrites ++ [s.txbuf.data s.txbuf.tail] } }
    let s2 := { s1 with txbuf := { s1.txbuf with tail := BUFNEXT M s1.txbuf.tail } }
    if s2.txbuf.tail = s2.txbuf.head then
      { s2 with USART := { s2.USART with CR1 := clearMask s2.USART.CR1 USART_CR1_TXEIE } }
    else s2
  else s

/-- The overrun block of `USART_IRQHandler` (lines 271-272):
`USART->ICR &= USART_ICR_ORECF`. -/
def USART_IRQHandler_ore (s : State W) : State W :=
  if flagSet s.USART.ISR USART_ISR_ORE then
    { s with USART := { s.USART with icrWrites := s.USART.icrWrites ++ [s.USART.ICR &&& USART_ICR_ORECF] } }
  else s

/-- The interrupt routine `USART_IRQHandler` of the first port. -/
def USART_IRQHandler (N M : Nat) (s : State W) : State W :=
  USART_IRQHandler_ore (USART_IRQHandler_tx M (USART_IRQHandler_rx N s))

/-! ## Second port -/

/-- The function `serial2RxCount`; the result is a `uint16_t`. -/
def serial2RxCount (N : Nat) (s : State W) : Nat :=
  let tail := s.rxbuf2.tail
  let head := s.rxbuf2.head
  BUFCOUNT head tail N % 65536

/-- The function `serial2RxFree`; the result is a `uint16_t`. -/
def serial2RxFree (N : Nat) (s : State W) : Nat :=
  let tail := s.rxbuf2.tail
  let head := s.rxbuf2.head
  ((N - 1) - BUFCOUNT head tail N) % 65536

/-- The function `serial2RxFlush`. -/
def serial2RxFlush (s : State W) : State W :=
  { s with rxbuf2 := { s.rxbuf2 with tail := s.rxbuf2.head } }

/-- The function `serial2RxCancel`. -/
def serial2RxCancel (N : Nat) (s : State W) : State W :=
  let s1 := { s with rxbuf2 := { s.rxbuf2 with data := store s.rxbuf2.data s.rxbuf2.head ASCII_CAN } }
  let s2 := { s1 with rxbuf2 := { s1.rxbuf2 with tail := s1.rxbuf2.head } }
  { s2 with rxbuf2 := { s2.rxbuf2 with head := (s2.rxbuf2.tail + 1) &&& (N - 1) } }

/-- The function `serial2GetC`; `bptr` is a `uint16_t`. -/
def serial2GetC (N : Nat) (s : State W) : Int × State W :=
  let bptr := s.rxbuf2.tail % 65536
  if bptr = s.rxbuf2.head then (-1, s)
  else
    let data := s.rxbuf2.data bptr
    let bptr1 := (bptr + 1) % 65536
    ((data : Int), { s with rxbuf2 := { s.rxbuf2 with tail := bptr1 &&& (N - 1) } })

/-- The function `serial2SetBaudRate`. `div` stands for the library macro
`UART_DIV_SAMPLING16` and `pclk` for the value of `HAL_RCC_GetPCLK2Freq()`.
The two index assignments are those of the source (lines 440-441):
`rxbuf.tail = rxbuf.head; txbuf.tail = txbuf.head;`. -/
def serial2SetBaudRate (div : Nat → Nat → Nat) (pclk : Nat) (baud_rate : Nat) (s : State W) :
    Bool × State W :=
  let u1 := { s.UART2 with CR1 := USART_CR1_RE ||| USART_CR1_TE }
  let u2 := { u1 with CR3 := USART_CR3_OVRDIS }
  let u3 := { u2 with BRR := div pclk baud_rate }
  let u4 := { u3 with CR1 := u3.CR1 ||| (USART_CR1_UE ||| USART_CR1_RXNEIE) }
  let s1 := { s with UART2 := u4 }
  let s2 := { s1 with rxbuf := { s1.rxbuf with tail := s1.rxbuf.head } }
  let s3 := { s2 with txbuf := { s2.txbuf with tail := s2.txbuf.head } }
  (true, s3)

/-- The function `serial2SetRtHandler`; `none` is the null pointer. -/
def serial2SetRtHandler (handler : Option (enqueue_realtime_command_ptr W)) (s : State W) :
    enqueue_realtime_command_ptr W × State W :=
  let prev := s.enqueue_realtime_command2
  match handler with
  | some h => (prev, { s with enqueue_realtime_command2 := h })
  | none => (prev, s)

/-- The blocking loop of `serial2PutC`, which sets `TXEIE` again after every
callback that agrees to wait. The result is read as for `serialPutC_wait`. -/
def serial2PutC_wait (stream_blocking_callback : W → Bool × W) (next_head : Nat) :
    Nat → State W → Option (Bool × State W)
  | 0, _ => none
  | fuel + 1, s =>
    if s.txbuf2.tail = next_head then
      let r := stream_blocking_callback s.world
      if r.1 then
        serial2PutC_wait stream_blocking_callback next_head fuel
          { s with world := r.2,
                   UART2 := { s.UART2 with CR1 := s.UART2.CR1 ||| USART_CR1_TXEIE } }
      else some (false, { s with world := r.2 })
    else some (true, s)

/-- The function `serial2PutC` (`M` is `TX_BUFFER_SIZE`). -/
def serial2PutC (M : Nat) (stream_blocking_callback : W → Bool × W) (fuel : Nat)
    (c : Nat) (s : State W) : Option (Bool × State W) :=
  let next_head := (s.txbuf2.head + 1) &&& (M - 1)
  match serial2PutC_wait stream_blocking_callback next_head fuel s with
  | none => none
  | some (false, s1) => some (false, s1)
  | some (true, s1) =>
    let s2 := { s1 with txbuf2 := { s1.txbuf2 with data := store s1.txbuf2.data s1.txbuf2.head (c % 256) } }
    let s3 := { s2 with txbuf2 := { s2.txbuf2 with head := next_head } }
    some (true, { s3 with UART2 := { s3.UART2 with CR1 := s3.UART2.CR1 ||| USART_CR1_TXEIE } })

/-- The function `serial2TxFlush`. -/
def serial2TxFlush (s : State W) : State W :=
  let s1 := { s with UART2 := { s.UART2 with CR1 := clearMask s.UART2.CR1 USART_CR1_TXEIE } }
  { s1 with txbuf2 := { s1.txbuf2 with tail := s1.txbuf2.head } }

/-- The function `serial2Disable`. -/
def serial2Disable (disable : Bool) (s : State W) : Bool × State W :=
  if disable then
    (true, { s with UART2 := { s.UART2 with CR1 := clearMask s.UART2.CR1 USART_CR1_RXNEIE } })
  else
    (true, { s with UART2 := { s.UART2 with CR1 := s.UART2.CR1 ||| USART_CR1_RXNEIE } })

/-- The receive-ready block of `UART2_IRQHandler` (lines 536-550); `next_head`
is a `uint16_t`. In the full case the flag written is `rxbuf.overflow`, as in
the source. -/
def UART2_IRQHandler_rx (N : Nat) (s : State W) : State W :=
  if flagSet s.UART2.ISR USART_ISR_RXNE then
    let next_head := ((s.rxbuf2.head + 1) &&& (N - 1)) % 65536
    if s.rxbuf2.tail = next_head then
      let s1 := { s with rxbuf := { s.rxbuf with overflow := true } }
      { s1 with UART2 := { s1.UART2 with rdrReads := s1.UART2.rdrReads + 1 } }
    else
      let data := s.UART2.RDR % 256
      let s1 := { s with UART2 := { s.UART2 with rdrReads := s.UART2.rdrReads + 1 } }
      let r := s1.enqueue_realtime_command2 data s1.world
      let s2 := { s1 with world := r.2 }
      if !r.1 then
        let s3 := { s2 with rxbuf2 := { s2.rxbuf2 with data := store s2.rxbuf2.data s2.rxbuf2.head data } }
        { s3 with rxbuf2 := { s3.rxbuf2 with head := next_head } }
      else s2
  else s

/-- The transmit-ready block of `UART2_IRQHandler` (lines 552-565); `tail` is
a `uint16_t`. -/
def UART2_IRQHandler_tx (M : Nat) (s : State W) : State W :=
  if flagSet s.UART2.ISR USART_ISR_TXE && flagSet s.UART2.CR1 USART_CR1_TXEIE then
    let tail := s.txbuf2.tail % 65536
    let s1 := { s with UART2 := { s.UART2 with tdrWrites := s.UART2.tdrWrites ++ [s.txbuf2.data tail] } }
    let tail1 := (tail + 1) % 65536
    let tail2 := if tail1 = M then 0 else tail1
    let s2 := { s1 with txbuf2 := { s1.txbuf2 with tail := tail2 } }
    if tail2 = s2.txbuf2.head then
      { s2 with UART2 := { s2.UART2 with CR1 := clearMask s2.UART2.CR1 USART_CR1_TXEIE } }
    else s2
  else s

/-- The error block of `UART2_IRQHandler` (lines 567-570):
`UART2->ICR &= USART_ICR_FECF` when `FE` is set, then `UART2->ICR = UART2->ISR`. -/
def UART2_IRQHandler_err (s : State W) : State W :=
  let s1 :=
    if flagSet s.UART2.ISR USART_ISR_FE then
      { s with UART2 := { s.UART2 with icrWrites := s.UART2.icrWrites ++ [s.UART2.ICR &&& USART_ICR_FECF] } }
    else s
  { s1 with UART2 := { s1.UART2 with icrWrites := s1.UART2.icrWrites ++ [s1.UART2.ISR] } }

/-- The interrupt routine `UART2_IRQHandler` of the second port. -/
def UART2_IRQHandler (N M : Nat) (s : State W) : State W :=
  UART2_IRQHandler_err (UART2_IRQHandler_tx M (UART2_IRQHandler_rx N s))

/-! ## Sequences of events used to state the properties -/

/-- One invocation of `USART_IRQHandler` after the hardware has presented the
status `ev.1` in `ISR` and the value `ev.2` in `RDR`. -/
def rxEvent (N M : Nat) (ev : Nat × Nat) (s : State W) : State W :=
  USART_IRQHandler N M { s with USART := { s.USART with ISR := ev.1, RDR := ev.2 } }

/-- Successive invocations of `USART_IRQHandler`, one per element of the list. -/
def rxEvents (N M : Nat) : List (Nat × Nat) → State W → State W
  | [], s => s
  | ev :: rest, s => rxEvents N M rest (rxEvent N M ev s)

/-- The results of `k` successive calls of `serialGetC`, and the state afterwards. -/
def serialGetCs (N : Nat) : Nat → State W → List Int × State W
  | 0, s => ([], s)
  | k + 1, s =>
    let r := serialGetC N s
    let rest := serialGetCs N k r.2
    (r.1 :: rest.1, rest.2)

/-- The number of queued bytes of a ring of `N` slots, `(head - tail) mod N`. -/
def ringCount (N head tail : Nat) : Nat := (head + N - tail) % N

/-- The queued bytes of a ring in FIFO order (oldest first). -/
def ringList (N : Nat) (data : Nat → Nat) (head tail : Nat) : List Nat :=
  (List.range (ringCount N head tail)).map (fun i => data ((tail + i) % N))

/-- The receive-ready step on the buffer alone, for a byte the handler leaves. -/
def rxPush (N d : Nat) (b : stream_rx_buffer_t) : stream_rx_buffer_t :=
  if b.tail = BUFNEXT N b.head then { b with overflow := true }
  else { b with data := store b.data b.head d, head := BUFNEXT N b.head }

/-- A register file in its reset state: every register zero, nothing accessed yet. -/
def resetRegs : USART_TypeDef :=
  { CR1 := 0, CR3 := 0, BRR := 0, ISR := 0, RDR := 0, ICR := 0,
    rdrReads := 0, tdrWrites := [], icrWrites := [] }

/-- A handler that consumes no byte and has no effect, the behaviour of the
default handler `stream_buffer_all` of the second port. -/
def bufferAll : enqueue_realtime_command_ptr W := fun _ w => (false, w)

/-- A blocking callback that declines to wait; its effect on the external
state is to count how often it has been consulted. -/
def declineAndCount : Nat → Bool × Nat := fun n => (false, n + 1)

/-- A concrete state for examples: zeroed data and registers, handlers that
consume nothing, the external state a counter at zero, and the given indices
(`rxbuf` head and tail, then `txbuf` head and tail); the second port is
zero-initialised. -/
def exampleState (rxHead rxTail txHead txTail : Nat) : State Nat :=
  { rxbuf := { head := rxHead, tail := rxTail, overflow := false, data := fun _ => 0 },
    txbuf := { head := txHead, tail := txTail, data := fun _ => 0 },
    enqueue_realtime_command := bufferAll,
    rxbuf2 := { head := 0, tail := 0, overflow := false, data := fun _ => 0 },
    txbuf2 := { head := 0, tail := 0, data := fun _ => 0 },
    enqueue_realtime_command2 := bufferAll,
    USART := resetRegs, UART2 := resetRegs, world := 0 }

/-- A realtime handler that recognises only `ASCII_CAN`: it consumes that
byte, counting it in the external state, and leaves every other byte. -/
def consumeCAN : enqueue_realtime_command_ptr Nat :=
  fun d w => if d = ASCII_CAN then (true, w + 1) else (false, w)

/-- A concrete state of the first port at a receive-ready interrupt: `RXNE`
is set in `ISR`, `RDR` holds `rdr`, the handler is `consumeCAN`, and the
receive buffer is empty at index 0. -/
def rxReadyState (rdr : Nat) : State Nat :=
  { exampleState 0 0 0 0 with
    enqueue_realtime_command := consumeCAN,
    USART := { resetRegs with ISR := USART_ISR_RXNE, RDR := rdr } }

/-- A concrete state of the second port at a receive-ready interrupt with a
full receive buffer (`RX_BUFFER_SIZE = 4`, head 0, tail 1): `RXNE` is set in
`ISR`, `RDR` holds `ASCII_CAN`, and the handler is `consumeCAN`. -/
def rx2FullState : State Nat :=
  { exampleState 0 0 0 0 with
    rxbuf2 := { head := 0, tail := 1, overflow := false, data := fun _ => 0 },
    enqueue_realtime_command2 := consumeCAN,
    UART2 := { resetRegs with ISR := USART_ISR_RXNE, RDR := ASCII_CAN } }

/-- The operations on the second port's receive buffer: an invocation of
`UART2_IRQHandler` after the hardware has presented `isr` in `ISR` and `rdr` in
`RDR`, and the foreground calls `serial2GetC`, `serial2RxFlush`, `serial2RxCancel`. -/
inductive Rx2Op where
  | irq (isr rdr : Nat)
  | getC
  | flush
  | cancel

/-- One operation of `Rx2Op` applied to the state. -/
def rx2Step (N M : Nat) : Rx2Op → State W → State W
  | Rx2Op.irq isr rdr, s =>
    UART2_IRQHandler N M { s with UART2 := { s.UART2 with ISR := isr, RDR := rdr } }
  | Rx2Op.getC, s => (serial2GetC N s).2
  | Rx2Op.flush, s => serial2RxFlush s
  | Rx2Op.cancel, s => serial2RxCancel N s

/-- A finite sequence of operations of `Rx2Op`, applied in order. -/
def rx2Run (N M : Nat) : List Rx2Op → State W → State W
  | [], s => s
  | op :: rest, s => rx2Run N M rest (rx2Step N M op s)

/-- Modelled from the spec: `stream_rx_suspend`, which is not under `src/`. The
spec's `suspend_read` "toggles a mode ... without disabling the hardware
interrupt"; the mode is no field of the buffer that `serial.c` reads, so the
queue is left as it is. The spec does not say what the boolean result is; it
is taken to report pending input, and no property depends on it. -/
def stream_rx_suspend (rxbuffer : stream_rx_buffer_t) (_suspend : Bool) :
    Bool × stream_rx_buffer_t :=
  (rxbuffer.tail != rxbuffer.head, rxbuffer)

/-- A handler built the way the spec describes layering: it consumes the
bytes it recognises itself, applying its own effect, and hands every other
byte to the previously installed handler. -/
def chainHandler (recognises : Nat → Bool) (effect : W → W)
    (prev : enqueue_realtime_command_ptr W) : enqueue_realtime_command_ptr W :=
  fun d w => if recognises d then (true, effect w) else prev d w

/-- The four indices of the first port are below the buffer sizes. -/
def indicesValid (N M : Nat) (s : State W) : Prop :=
  s.rxbuf.head < N ∧ s.rxbuf.tail < N ∧ s.txbuf.head < M ∧ s.txbuf.tail < M

/-- A concrete state of the second port with 3 bytes queued in `rxbuf2` and 2
in `txbuf2`, the first port holding 1 byte in each of its buffers. -/
def port2QueuedState : State Nat :=
  { exampleState 1 0 1 0 with
    rxbuf2 := { head := 3, tail := 0, overflow := false, data := fun _ => 0x41 },
    txbuf2 := { head := 2, tail := 0, data := fun _ => 0x42 } }

/-- The first port's part of the file-scope state agrees in two states:
`rxbuf`, `txbuf` and `enqueue_realtime_command`. -/
def samePort1 (s t : State W) : Prop :=
  t.rxbuf = s.rxbuf ∧ t.txbuf = s.txbuf ∧ t.enqueue_realtime_command = s.enqueue_realtime_command

/-- The second port's part of the file-scope state agrees in two states:
`rxbuf2`, `txbuf2` and `enqueue_realtime_command2`. -/
def samePort2 (s t : State W) : Prop :=
  t.rxbuf2 = s.rxbuf2 ∧ t.txbuf2 = s.txbuf2
    ∧ t.enqueue_realtime_command2 = s.enqueue_realtime_command2

/-- Successive calls `serialPutC(c)` for the bytes of the list, with the
results in order and the state afterwards. -/
def serialPutCs (M : Nat) (stream_blocking_callback : W → Bool × W) (fuel : Nat) :
    List Nat → State W → Option (List Bool × State W)
  | [], s => some ([], s)
  | c :: rest, s =>
    match serialPutC M stream_blocking_callback fuel c s with
    | none => none
    | some r =>
      match serialPutCs M stream_blocking_callback fuel rest r.2 with
      | none => none
      | some q => some (r.1 :: q.1, q.2)

/-- The operations of the first port: the foreground calls with their
arguments (the blocking callback and the fuel of its wait loop included), and
an invocation of `USART_IRQHandler` after the hardware has presented `isr` in
`ISR`, `rdr` in `RDR` and `icr` as the value read from `ICR`. -/
inductive Port1Op (W : Type) where
  | putC (cb : W → Bool × W) (fuel c : Nat)
  | writeS (cb : W → Bool × W) (fuel : Nat) (s : List Nat)
  | write (cb : W → Bool × W) (fuel : Nat) (s : List Nat) (length : Nat)
  | setBaudRate (div : Nat → Nat → Nat) (pclk baud_rate : Nat)
  | disable (d : Bool)
  | rxFlush
  | rxCancel
  | getC
  | irq (isr rdr icr : Nat)

/-- One operation of `Port1Op` applied to the state; `none` when a blocking
write has not returned within its fuel. -/
def port1Step (N M : Nat) : Port1Op W → State W → Option (State W)
  | Port1Op.putC cb fuel c, s => (serialPutC M cb fuel c s).map (fun r => r.2)
  | Port1Op.writeS cb fuel str, s => serialWriteS M cb fuel str s
  | Port1Op.write cb fuel str length, s => serialWrite M cb fuel str length s
  | Port1Op.setBaudRate div pclk baud_rate, s => some (serialSetBaudRate div pclk baud_rate s).2
  | Port1Op.disable d, s => some (serialDisable d s).2
  | Port1Op.rxFlush, s => some (serialRxFlush s)
  | Port1Op.rxCancel, s => some (serialRxCancel N s)
  | Port1Op.getC, s => some (serialGetC N s).2
  | Port1Op.irq isr rdr icr, s =>
    some (USART_IRQHandler N M
      { s with USART := { s.USART with ISR := isr, RDR := rdr, ICR := icr } })

/-- A finite sequence of operations of `Port1Op`, applied in order. -/
def port1Run (N M : Nat) : List (Port1Op W) → State W → Option (State W)
  | [], s => some s
  | op :: rest, s =>
    match port1Step N M op s with
    | none => none
    | some s1 => port1Run N M rest s1

/-- The transmit interrupt is armed only on a non-empty buffer: if `TXEIE` is
set in `USART->CR1` then `txbuf.tail != txbuf.head`. -/
def armedNonEmpty (s : State W) : Prop :=
  flagSet s.USART.CR1 USART_CR1_TXEIE = true → s.txbuf.tail ≠ s.txbuf.head

/-- A concrete register state of the first port in which only the overrun flag
`ORE` is set in `ISR` and `ICR` reads as 0; the buffers are empty. -/
def overrunState : State Nat :=
  { exampleState 0 0 0 0 with USART := { resetRegs with ISR := USART_ISR_ORE, ICR := 0 } }

/-- A concrete run of first-port operations for examples: two writes, the
receive interrupt disabled, three transmit-ready interrupts, a read and a
further write; the callback declines whenever consulted. -/
def examplePort1Ops : List (Port1Op Nat) :=
  [Port1Op.putC declineAndCount 1 0x41, Port1Op.putC declineAndCount 1 0x42,
    Port1Op.disable true, Port1Op.irq 0x80 0 0, Port1Op.irq 0xA0 0x61 0,
    Port1Op.irq 0x80 0 0, Port1Op.getC, Port1Op.putC declineAndCount 1 0x43]

/-! ## Ring arithmetic -/

theorem BUFNEXT_pow (e p : Nat) : BUFNEXT (2 ^ e) p = (p + 1) % 2 ^ e := by
  unfold BUFNEXT
  exact Nat.and_pow_two_sub_one_eq_mod _ _

theorem mod_two_cases (a N : Nat) (h : a < 2 * N) :
    (a < N ∧ a % N = a) ∨ (N ≤ a ∧ a % N = a - N) := by
  by_cases hlt : a < N
  · exact Or.inl ⟨hlt, Nat.mod_eq_of_lt hlt⟩
  · refine Or.inr ⟨by omega, ?_⟩
    rw [Nat.mod_eq_sub_mod (by omega)]
    exact Nat.mod_eq_of_lt (by omega)

theorem ringCount_lt (N head tail : Nat) (hN : 0 < N) : ringCount N head tail < N :=
  Nat.mod_lt _ hN

theorem ringCount_self (N p : Nat) (hp : p < N) : ringCount N p p = 0 := by
  unfold ringCount
  have : p + N - p = N := by omega
  rw [this, Nat.mod_self]

theorem ringCount_eq_zero (N head tail : Nat) (hh : head < N) (ht : tail < N)
    (h0 : ringCount N head tail = 0) : head = tail := by
  unfold ringCount at h0
  have h1 := mod_two_cases (head + N - tail) N (by omega)
  omega

theorem ringCount_next_head (N head tail : Nat) (hh : head < N) (ht : tail < N)
    (hfree : tail ≠ (head + 1) % N) :
    ringCount N ((head + 1) % N) tail = ringCount N head tail + 1 := by
  unfold ringCount
  have h1 := mod_two_cases (head + 1) N (by omega)
  have h2 := mod_two_cases (head + N - tail) N (by omega)
  have h3 := mod_two_cases ((head + 1) % N + N - tail) N (by omega)
  omega

theorem ringCount_full (N head tail : Nat) (hh : head < N) (ht : tail < N)
    (hfull : tail = (head + 1) % N) : ringCount N head tail = N - 1 := by
  unfold ringCount
  have h1 := mod_two_cases (head + 1) N (by omega)
  have h2 := mod_two_cases (head + N - tail) N (by omega)
  omega

theorem ringCount_next_tail (N head tail : Nat) (hh : head < N) (ht : tail < N)
    (hne : tail ≠ head) :
    ringCount N head tail = ringCount N head ((tail + 1) % N) + 1 := by
  unfold ringCount
  have h1 := mod_two_cases (tail + 1) N (by omega)
  have h2 := mod_two_cases (head + N - tail) N (by omega)
  have h3 := mod_two_cases (head + N - (tail + 1) % N) N (by omega)
  omega

theorem ring_slot_ne_head (N head tail i : Nat) (hh : head < N) (ht : tail < N)
    (hi : i < ringCount N head tail) : (tail + i) % N ≠ head := by
  unfold ringCount at hi
  have h1 := mod_two_cases (head + N - tail) N (by omega)
  have h2 := mod_two_cases (tail + i) N (by omega)
  omega

theorem ring_slot_head (N head tail : Nat) (hh : head < N) (ht : tail < N) :
    (tail + ringCount N head tail) % N = head := by
  unfold ringCount
  have h1 := mod_two_cases (head + N - tail) N (by omega)
  have h2 := mod_two_cases (tail + (head + N - tail) % N) N (by omega)
  omega

theorem ringList_length (N : Nat) (data : Nat → Nat) (head tail : Nat) :
    (ringList N data head tail).length = ringCount N head tail := by
  simp [ringList]

theorem ringList_self (N : Nat) (data : Nat → Nat) (p : Nat) (hp : p < N) :
    ringList N data p p = [] := by
  simp [ringList, ringCount_self N p hp]

theorem ringList_push (N : Nat) (data : Nat → Nat) (head tail d : Nat)
    (hh : head < N) (ht : tail < N) (hfree : tail ≠ (head + 1) % N) :
    ringList N (store data head d) ((head + 1) % N) tail
      = ringList N data head tail ++ [d] := by
  unfold ringList
  rw [ringCount_next_head N head tail hh ht hfree, List.range_succ, List.map_append]
  congr 1
  · apply List.map_congr_left
    intro i hi
    have hne := ring_slot_ne_head N head tail i hh ht (List.mem_range.mp hi)
    simp [store, hne]
  · simp [store, ring_slot_head N head tail hh ht]

theorem ringList_pop (N : Nat) (data : Nat → Nat) (head tail : Nat)
    (hh : head < N) (ht : tail < N) (hne : tail ≠ head) :
    ringList N data head tail = data tail :: ringList N data head ((tail + 1) % N) := by
  unfold ringList
  rw [ringCount_next_tail N head tail hh ht hne, List.range_succ_eq_map, List.map_cons,
    List.map_map]
  congr 1
  · simp [Nat.mod_eq_of_lt ht]
  · apply List.map_congr_left
    intro i _
    simp only [Function.comp, Nat.mod_add_mod]
    congr 2
    omega

/-! ## The receive path on the buffer level -/

theorem USART_IRQHandler_tx_rxbuf (M : Nat) (s : State W) :
    (USART_IRQHandler_tx M s).rxbuf = s.rxbuf := by
  unfold USART_IRQHandler_tx
  split
  · dsimp only
    split <;> rfl
  · rfl

theorem USART_IRQHandler_ore_rxbuf (s : State W) :
    (USART_IRQHandler_ore s).rxbuf = s.rxbuf := by
  unfold USART_IRQHandler_ore
  split <;> rfl

theorem USART_IRQHandler_rxbuf (N M : Nat) (s : State W) :
    (USART_IRQHandler N M s).rxbuf = (USART_IRQHandler_rx N s).rxbuf := by
  unfold USART_IRQHandler
  rw [USART_IRQHandler_ore_rxbuf, USART_IRQHandler_tx_rxbuf]

theorem USART_IRQHandler_rx_handler (N : Nat) (s : State W) :
    (USART_IRQHandler_rx N s).enqueue_realtime_command = s.enqueue_realtime_command := by
  unfold USART_IRQHandler_rx
  split
  · dsimp only
    split
    · split <;> rfl
    · rfl
  · rfl

theorem USART_IRQHandler_handler (N M : Nat) (s : State W) :
    (USART_IRQHandler N M s).enqueue_realtime_command = s.enqueue_realtime_command := by
  have htx : ∀ t : State W,
      (USART_IRQHandler_tx M t).enqueue_realtime_command = t.enqueue_realtime_command := by
    intro t
    unfold USART_IRQHandler_tx
    split
    · dsimp only
      split <;> rfl
    · rfl
  have hore : ∀ t : State W,
      (USART_IRQHandler_ore t).enqueue_realtime_command = t.enqueue_realtime_command := by
    intro t
    unfold USART_IRQHandler_ore
    split <;> rfl
  unfold USART_IRQHandler
  rw [hore, htx, USART_IRQHandler_rx_handler]

theorem USART_IRQHandler_rx_push (N : Nat) (s : State W)
    (hrx : flagSet s.USART.ISR USART_ISR_RXNE = true)
    (hrt : (s.enqueue_realtime_command (s.USART.RDR % 256) s.world).1 = false) :
    (USART_IRQHandler_rx N s).rxbuf = rxPush N (s.USART.RDR % 256) s.rxbuf := by
  unfold USART_IRQHandler_rx rxPush
  rw [if_pos hrx]
  dsimp only
  rw [hrt]
  simp only [Bool.not_false, if_true]
  split <;> rfl

theorem rxEvent_rxbuf (N M : Nat) (ev : Nat × Nat) (s : State W)
    (hrx : flagSet ev.1 USART_ISR_RXNE = true)
    (hrt : ∀ w, (s.enqueue_realtime_command (ev.2 % 256) w).1 = false) :
    (rxEvent N M ev s).rxbuf = rxPush N (ev.2 % 256) s.rxbuf := by
  unfold rxEvent
  rw [USART_IRQHandler_rxbuf, USART_IRQHandler_rx_push _ _ hrx (hrt _)]

theorem rxEvent_handler (N M : Nat) (ev : Nat × Nat) (s : State W) :
    (rxEvent N M ev s).enqueue_realtime_command = s.enqueue_realtime_command := by
  unfold rxEvent
  rw [USART_IRQHandler_handler]

theorem rxEvents_handler (N M : Nat) (evs : List (Nat × Nat)) (s : State W) :
    (rxEvents N M evs s).enqueue_realtime_command = s.enqueue_realtime_command := by
  induction evs generalizing s with
  | nil => rfl
  | cons ev rest ih => rw [rxEvents, ih, rxEvent_handler]

theorem rxEvents_rxbuf (N M : Nat) (evs : List (Nat × Nat)) (s : State W)
    (hrx : ∀ ev ∈ evs, flagSet ev.1 USART_ISR_RXNE = true)
    (hrt : ∀ ev ∈ evs, ∀ w, (s.enqueue_realtime_command (ev.2 % 256) w).1 = false) :
    (rxEvents N M evs s).rxbuf
      = (evs.map (fun ev => ev.2 % 256)).foldl (fun b d => rxPush N d b) s.rxbuf := by
  induction evs generalizing s with
  | nil => rfl
  | cons ev rest ih =>
    rw [rxEvents, ih, rxEvent_rxbuf N M ev s (hrx ev (List.mem_cons_self _ _))
      (hrt ev (List.mem_cons_self _ _))]
    · rfl
    · exact fun x hx => hrx x (List.mem_cons_of_mem _ hx)
    · intro x hx w
      rw [rxEvent_handler]
      exact hrt x (List.mem_cons_of_mem _ hx) w

/-- Pushing a list of bytes: the queue takes as many as fit in the `N - 1`
usable slots, the flag records whether a byte was turned away, and the
indices stay below `N`. -/
theorem rxPush_foldl (e : Nat) (ds : List Nat) (b : stream_rx_buffer_t)
    (hh : b.head < 2 ^ e) (ht : b.tail < 2 ^ e) :
    let b1 := ds.foldl (fun b d => rxPush (2 ^ e) d b) b
    ringList (2 ^ e) b1.data b1.head b1.tail
        = ringList (2 ^ e) b.data b.head b.tail
          ++ ds.take (2 ^ e - 1 - ringCount (2 ^ e) b.head b.tail)
      ∧ b1.overflow = (b.overflow || decide (2 ^ e - 1 - ringCount (2 ^ e) b.head b.tail < ds.length))
      ∧ b1.head < 2 ^ e ∧ b1.tail = b.tail := by
  induction ds generalizing b with
  | nil => exact ⟨by simp, by simp, hh, rfl⟩
  | cons d rest ih =>
    have hN : 0 < 2 ^ e := Nat.two_pow_pos e
    have hc := ringCount_lt (2 ^ e) b.head b.tail hN
    simp only [List.foldl_cons]
    by_cases hfull : b.tail = BUFNEXT (2 ^ e) b.head
    · have hstep : rxPush (2 ^ e) d b = { b with overflow := true } := by
        simp [rxPush, hfull]
      rw [hstep]
      have hcnt := ringCount_full (2 ^ e) b.head b.tail hh ht (by rw [← BUFNEXT_pow]; exact hfull)
      have := ih { b with overflow := true } hh ht
      simp only [hcnt, Nat.sub_self, List.take_zero, List.append_nil] at this ⊢
      refine ⟨this.1, ?_, this.2.2.1, this.2.2.2⟩
      rw [this.2.1]
      simp
    · rw [BUFNEXT_pow] at hfull
      have hstep : rxPush (2 ^ e) d b
          = { b with data := store b.data b.head d, head := (b.head + 1) % 2 ^ e } := by
        simp [rxPush, hfull, BUFNEXT_pow]
      rw [hstep]
      have hc2 := ringCount_lt (2 ^ e) ((b.head + 1) % 2 ^ e) b.tail hN
      have hcnt := ringCount_next_head (2 ^ e) b.head b.tail hh ht hfull
      have hlist := ringList_push (2 ^ e) b.data b.head b.tail d hh ht hfull
      have := ih { b with data := store b.data b.head d, head := (b.head + 1) % 2 ^ e }
        (Nat.mod_lt _ hN) ht
      simp only [hcnt, hlist] at this
      obtain ⟨h1, h2, h3, h4⟩ := this
      have hk : 2 ^ e - 1 - ringCount (2 ^ e) b.head b.tail
          = (2 ^ e - 1 - (ringCount (2 ^ e) b.head b.tail + 1)) + 1 := by omega
      refine ⟨?_, ?_, h3, h4⟩
      · rw [h1, hk, List.take_succ_cons, List.append_assoc]
        rfl
      · rw [h2]
        congr 1
        simp only [List.length_cons, decide_eq_decide]
        omega

/-! ## Reading the receive buffer -/

theorem serialGetC_empty (N : Nat) (s : State W) (h : s.rxbuf.tail = s.rxbuf.head) :
    serialGetC N s = (-1, s) := by
  simp [serialGetC, h]

theorem serialGetC_nonempty (N : Nat) (s : State W) (h : s.rxbuf.tail ≠ s.rxbuf.head) :
    serialGetC N s
      = ((s.rxbuf.data s.rxbuf.tail : Int),
          { s with rxbuf := { s.rxbuf with tail := BUFNEXT N s.rxbuf.tail } }) := by
  simp [serialGetC, h]

theorem serialGetC_frame (N : Nat) (s : State W) :
    (serialGetC N s).2.rxbuf.head = s.rxbuf.head
      ∧ (serialGetC N s).2.rxbuf.data = s.rxbuf.data
      ∧ (serialGetC N s).2.rxbuf.overflow = s.rxbuf.overflow := by
  by_cases h : s.rxbuf.tail = s.rxbuf.head
  · rw [serialGetC_empty N s h]
    exact ⟨rfl, rfl, rfl⟩
  · rw [serialGetC_nonempty N s h]
    exact ⟨rfl, rfl, rfl⟩

theorem serialGetCs_frame (N k : Nat) (s : State W) :
    (serialGetCs N k s).2.rxbuf.head = s.rxbuf.head
      ∧ (serialGetCs N k s).2.rxbuf.data = s.rxbuf.data
      ∧ (serialGetCs N k s).2.rxbuf.overflow = s.rxbuf.overflow := by
  induction k generalizing s with
  | zero => exact ⟨rfl, rfl, rfl⟩
  | succ k ih =>
    obtain ⟨h1, h2, h3⟩ := ih (serialGetC N s).2
    obtain ⟨g1, g2, g3⟩ := serialGetC_frame N s
    simp only [serialGetCs]
    exact ⟨h1.trans g1, h2.trans g2, h3.trans g3⟩

theorem serialGetCs_add (N j k : Nat) (s : State W) :
    serialGetCs N (j + k) s
      = ((serialGetCs N j s).1 ++ (serialGetCs N k (serialGetCs N j s).2).1,
          (serialGetCs N k (serialGetCs N j s).2).2) := by
  induction j generalizing s with
  | zero => simp [serialGetCs]
  | succ j ih =>
    rw [Nat.succ_add]
    simp only [serialGetCs, ih, List.cons_append]

/-- Reading `j` of the queued bytes returns the oldest `j` in order and leaves the rest. -/
theorem serialGetCs_take (e j : Nat) (s : State W)
    (hh : s.rxbuf.head < 2 ^ e) (ht : s.rxbuf.tail < 2 ^ e)
    (hj : j ≤ ringCount (2 ^ e) s.rxbuf.head s.rxbuf.tail) :
    (serialGetCs (2 ^ e) j s).1
        = List.map Int.ofNat ((ringList (2 ^ e) s.rxbuf.data s.rxbuf.head s.rxbuf.tail).take j)
      ∧ ringList (2 ^ e) (serialGetCs (2 ^ e) j s).2.rxbuf.data
          (serialGetCs (2 ^ e) j s).2.rxbuf.head (serialGetCs (2 ^ e) j s).2.rxbuf.tail
        = (ringList (2 ^ e) s.rxbuf.data s.rxbuf.head s.rxbuf.tail).drop j
      ∧ (serialGetCs (2 ^ e) j s).2.rxbuf.tail < 2 ^ e := by
  induction j generalizing s with
  | zero => exact ⟨by simp [serialGetCs], by simp [serialGetCs], ht⟩
  | succ j ih =>
    have hN : 0 < 2 ^ e := Nat.two_pow_pos e
    have hne : s.rxbuf.tail ≠ s.rxbuf.head := by
      intro heq
      rw [heq, ringCount_self _ _ hh] at hj
      omega
    have hpop := ringList_pop (2 ^ e) s.rxbuf.data s.rxbuf.head s.rxbuf.tail hh ht hne
    have hcnt := ringCount_next_tail (2 ^ e) s.rxbuf.head s.rxbuf.tail hh ht hne
    have hstep := serialGetC_nonempty (2 ^ e) s hne
    rw [BUFNEXT_pow] at hstep
    obtain ⟨h1, h2, h3⟩ := ih (serialGetC (2 ^ e) s).2
      (by rw [hstep]; exact hh) (by rw [hstep]; exact Nat.mod_lt _ hN)
      (by rw [hstep]; dsimp only; omega)
    simp only [serialGetCs]
    rw [hstep] at h1 h2 h3 ⊢
    dsimp only at h1 h2 h3 ⊢
    rw [hpop]
    exact ⟨by rw [h1]; simp, by rw [h2]; simp, h3⟩

/-- Receive-ready events on an empty buffer: the queue afterwards is the first
`N - 1` bytes received, and the flag is raised exactly when more arrived. -/
theorem rxEvents_from_empty (e M : Nat) (s : State W) (evs : List (Nat × Nat))
    (hhead : s.rxbuf.head < 2 ^ e) (hempty : s.rxbuf.tail = s.rxbuf.head)
    (hrx : ∀ ev ∈ evs, flagSet ev.1 USART_ISR_RXNE = true)
    (hrt : ∀ ev ∈ evs, ∀ w, (s.enqueue_realtime_command (ev.2 % 256) w).1 = false) :
    ringList (2 ^ e) (rxEvents (2 ^ e) M evs s).rxbuf.data (rxEvents (2 ^ e) M evs s).rxbuf.head
        (rxEvents (2 ^ e) M evs s).rxbuf.tail
        = (evs.map (fun ev => ev.2 % 256)).take (2 ^ e - 1)
      ∧ (rxEvents (2 ^ e) M evs s).rxbuf.overflow
        = (s.rxbuf.overflow || decide (2 ^ e - 1 < evs.length))
      ∧ (rxEvents (2 ^ e) M evs s).rxbuf.head < 2 ^ e
      ∧ (rxEvents (2 ^ e) M evs s).rxbuf.tail = s.rxbuf.tail := by
  have ht : s.rxbuf.tail < 2 ^ e := by rw [hempty]; exact hhead
  have h := rxPush_foldl e (evs.map (fun ev => ev.2 % 256)) s.rxbuf hhead ht
  rw [← rxEvents_rxbuf (2 ^ e) M evs s hrx hrt] at h
  have hc : ringCount (2 ^ e) s.rxbuf.head s.rxbuf.tail = 0 := by
    rw [hempty]; exact ringCount_self _ _ hhead
  have hl : ringList (2 ^ e) s.rxbuf.data s.rxbuf.head s.rxbuf.tail = [] := by
    rw [hempty]; exact ringList_self _ _ _ hhead
  simp only [hc, hl, List.nil_append, Nat.sub_zero, List.length_map] at h
  exact h

/-- C1: RX round trip on the first port. For `N = 2 ^ e`, an empty receive
buffer at any index position, and at most `N - 1` receive-ready invocations of
`USART_IRQHandler` whose bytes the installed handler does not consume, the
same number of `serialGetC` calls returns exactly those bytes in order, leaves
the buffer empty, and `rxbuf.overflow` keeps its value after every invocation
and every read. -/
theorem C1_rx_round_trip (e M : Nat) (s : State W) (evs : List (Nat × Nat))
    (hhead : s.rxbuf.head < 2 ^ e) (hempty : s.rxbuf.tail = s.rxbuf.head)
    (hk : evs.length ≤ 2 ^ e - 1)
    (hrx : ∀ ev ∈ evs, flagSet ev.1 USART_ISR_RXNE = true ∧ ev.2 < 256)
    (hrt : ∀ ev ∈ evs, ∀ w, (s.enqueue_realtime_command ev.2 w).1 = false) :
    (serialGetCs (2 ^ e) evs.length (rxEvents (2 ^ e) M evs s)).1
        = evs.map (fun ev => (ev.2 : Int))
      ∧ (serialGetCs (2 ^ e) evs.length (rxEvents (2 ^ e) M evs s)).2.rxbuf.tail
        = (serialGetCs (2 ^ e) evs.length (rxEvents (2 ^ e) M evs s)).2.rxbuf.head
      ∧ (∀ j, (rxEvents (2 ^ e) M (evs.take j) s).rxbuf.overflow = s.rxbuf.overflow)
      ∧ (∀ j, (serialGetCs (2 ^ e) j (rxEvents (2 ^ e) M evs s)).2.rxbuf.overflow
          = s.rxbuf.overflow) := by
  have hrx1 : ∀ ev ∈ evs, flagSet ev.1 USART_ISR_RXNE = true := fun ev h => (hrx ev h).1
  have hrt1 : ∀ ev ∈ evs, ∀ w, (s.enqueue_realtime_command (ev.2 % 256) w).1 = false := by
    intro ev h w
    rw [Nat.mod_eq_of_lt (hrx ev h).2]
    exact hrt ev h w
  have hbytes : evs.map (fun ev => ev.2 % 256) = evs.map (fun ev => ev.2) :=
    List.map_congr_left (fun ev h => Nat.mod_eq_of_lt (hrx ev h).2)
  obtain ⟨hl, hov, hh, ht⟩ := rxEvents_from_empty e M s evs hhead hempty hrx1 hrt1
  have ht1 : (rxEvents (2 ^ e) M evs s).rxbuf.tail < 2 ^ e := by
    rw [ht, hempty]; exact hhead
  rw [hbytes, List.take_of_length_le (by simpa using hk)] at hl
  have hlen : evs.length ≤ ringCount (2 ^ e) (rxEvents (2 ^ e) M evs s).rxbuf.head
      (rxEvents (2 ^ e) M evs s).rxbuf.tail := by
    rw [← ringList_length (2 ^ e) (rxEvents (2 ^ e) M evs s).rxbuf.data, hl]
    simp
  obtain ⟨g1, g2, g3⟩ := serialGetCs_take e evs.length (rxEvents (2 ^ e) M evs s) hh ht1 hlen
  obtain ⟨f1, _, _⟩ := serialGetCs_frame (2 ^ e) evs.length (rxEvents (2 ^ e) M evs s)
  refine ⟨?_, ?_, ?_, ?_⟩
  · rw [g1, hl, List.take_of_length_le (by simp), List.map_map]
    rfl
  · rw [hl] at g2
    have hz : ringCount (2 ^ e)
        (serialGetCs (2 ^ e) evs.length (rxEvents (2 ^ e) M evs s)).2.rxbuf.head
        (serialGetCs (2 ^ e) evs.length (rxEvents (2 ^ e) M evs s)).2.rxbuf.tail = 0 := by
      rw [← ringList_length (2 ^ e)
        (serialGetCs (2 ^ e) evs.length (rxEvents (2 ^ e) M evs s)).2.rxbuf.data, g2]
      simp
    exact (ringCount_eq_zero _ _ _ (by rw [f1]; exact hh) g3 hz).symm
  · intro j
    obtain ⟨_, hov1, _, _⟩ := rxEvents_from_empty e M s (evs.take j) hhead hempty
      (fun ev h => hrx1 ev (List.mem_of_mem_take h))
      (fun ev h => hrt1 ev (List.mem_of_mem_take h))
    have : ¬ (2 ^ e - 1 < (evs.take j).length) := by
      rw [List.length_take]
      omega
    rw [hov1, decide_eq_false this, Bool.or_false]
  · intro j
    have : ¬ (2 ^ e - 1 < evs.length) := by omega
    rw [(serialGetCs_frame (2 ^ e) j (rxEvents (2 ^ e) M evs s)).2.2, hov,
      decide_eq_false this, Bool.or_false]

/-- An instance of `C1_rx_round_trip`: `N = 4`, the empty buffer at index 3 (so the
writes wrap around), three bytes and a handler that consumes nothing. -/
theorem C1_rx_round_trip_witness :
    (serialGetCs (2 ^ 2) 3 (rxEvents (2 ^ 2) 8 [(0x20, 0x41), (0x20, 0x42), (0xA0, 0x43)]
        (exampleState 3 3 3 3))).1 = [0x41, 0x42, 0x43] :=
  (C1_rx_round_trip 2 8 (exampleState 3 3 3 3) [(0x20, 0x41), (0x20, 0x42), (0xA0, 0x43)]
    (by decide) rfl (by decide) (by decide) (fun _ _ _ => rfl)).1

/-- C2: overflow on the first port. For `N = 2 ^ e`, feeding `N + 4` bytes the
handler does not consume into an empty receive buffer, with no read in
between, leaves exactly the first `N - 1` bytes queued in FIFO order
(`N - 1` calls of `serialGetC` return them and the next returns `-1`), sets
`rxbuf.overflow`, and keeps head and tail below `N`. -/
theorem C2_rx_overflow (e M : Nat) (s : State W) (evs : List (Nat × Nat))
    (hhead : s.rxbuf.head < 2 ^ e) (hempty : s.rxbuf.tail = s.rxbuf.head)
    (hlen : evs.length = 2 ^ e + 4)
    (hrx : ∀ ev ∈ evs, flagSet ev.1 USART_ISR_RXNE = true ∧ ev.2 < 256)
    (hrt : ∀ ev ∈ evs, ∀ w, (s.enqueue_realtime_command ev.2 w).1 = false) :
    (serialGetCs (2 ^ e) (2 ^ e - 1) (rxEvents (2 ^ e) M evs s)).1
        = (evs.take (2 ^ e - 1)).map (fun ev => (ev.2 : Int))
      ∧ (serialGetC (2 ^ e)
          (serialGetCs (2 ^ e) (2 ^ e - 1) (rxEvents (2 ^ e) M evs s)).2).1 = -1
      ∧ (rxEvents (2 ^ e) M evs s).rxbuf.overflow = true
      ∧ (rxEvents (2 ^ e) M evs s).rxbuf.head < 2 ^ e
      ∧ (rxEvents (2 ^ e) M evs s).rxbuf.tail < 2 ^ e := by
  have hrx1 : ∀ ev ∈ evs, flagSet ev.1 USART_ISR_RXNE = true := fun ev h => (hrx ev h).1
  have hrt1 : ∀ ev ∈ evs, ∀ w, (s.enqueue_realtime_command (ev.2 % 256) w).1 = false := by
    intro ev h w
    rw [Nat.mod_eq_of_lt (hrx ev h).2]
    exact hrt ev h w
  have hbytes : evs.map (fun ev => ev.2 % 256) = evs.map (fun ev => ev.2) :=
    List.map_congr_left (fun ev h => Nat.mod_eq_of_lt (hrx ev h).2)
  obtain ⟨hl, hov, hh, ht⟩ := rxEvents_from_empty e M s evs hhead hempty hrx1 hrt1
  have ht1 : (rxEvents (2 ^ e) M evs s).rxbuf.tail < 2 ^ e := by
    rw [ht, hempty]; exact hhead
  rw [hbytes] at hl
  have hcnt : ringCount (2 ^ e) (rxEvents (2 ^ e) M evs s).rxbuf.head
      (rxEvents (2 ^ e) M evs s).rxbuf.tail = 2 ^ e - 1 := by
    rw [← ringList_length (2 ^ e) (rxEvents (2 ^ e) M evs s).rxbuf.data, hl, List.length_take,
      List.length_map]
    omega
  obtain ⟨g1, g2, g3⟩ := serialGetCs_take e (2 ^ e - 1) (rxEvents (2 ^ e) M evs s) hh ht1
    (by rw [hcnt])
  obtain ⟨f1, _, _⟩ := serialGetCs_frame (2 ^ e) (2 ^ e - 1) (rxEvents (2 ^ e) M evs s)
  refine ⟨?_, ?_, ?_, hh, ht1⟩
  · rw [g1, hl, List.take_take, Nat.min_self, ← List.map_take, List.map_map]
    rfl
  · have hz : ringCount (2 ^ e)
        (serialGetCs (2 ^ e) (2 ^ e - 1) (rxEvents (2 ^ e) M evs s)).2.rxbuf.head
        (serialGetCs (2 ^ e) (2 ^ e - 1) (rxEvents (2 ^ e) M evs s)).2.rxbuf.tail = 0 := by
      rw [← ringList_length (2 ^ e)
        (serialGetCs (2 ^ e) (2 ^ e - 1) (rxEvents (2 ^ e) M evs s)).2.rxbuf.data, g2,
        List.length_drop, ringList_length, hcnt, Nat.sub_self]
    rw [serialGetC_empty _ _ (ringCount_eq_zero _ _ _ (by rw [f1]; exact hh) g3 hz).symm]
  · have : 2 ^ e - 1 < evs.length := by omega
    rw [hov, decide_eq_true this, Bool.or_true]

/-- An instance of `C2_rx_overflow`, the spec's example scaled to `N = 4`: eight
bytes are fed and the first three are the ones read back. -/
theorem C2_rx_overflow_witness :
    (serialGetCs (2 ^ 2) (2 ^ 2 - 1) (rxEvents (2 ^ 2) 8
        [(0x20, 1), (0x20, 2), (0x20, 3), (0x20, 4), (0x20, 5), (0x20, 6), (0x20, 7), (0x20, 8)]
        (exampleState 2 2 0 0))).1 = [1, 2, 3] :=
  (C2_rx_overflow 2 8 (exampleState 2 2 0 0)
    [(0x20, 1), (0x20, 2), (0x20, 3), (0x20, 4), (0x20, 5), (0x20, 6), (0x20, 7), (0x20, 8)]
    (by decide) rfl (by decide) (by decide) (fun _ _ _ => rfl)).1

/-- C3: cancel. For `N = 2 ^ e` with at least two slots and any receive buffer
with a valid head index, whatever its content and tail, after
`serialRxCancel` the next `serialGetC` returns `0x18` (`ASCII_CAN`) and the one
after that returns `-1`; the same holds for `serial2RxCancel` followed by
`serial2GetC` on the second port (whose 16-bit locals need `N ≤ 65536`). -/
theorem C3_cancel_leaves_one_CAN (e : Nat) (s : State W) (he : 1 ≤ e) (he16 : e ≤ 16)
    (hh : s.rxbuf.head < 2 ^ e) (hh2 : s.rxbuf2.head < 2 ^ e) :
    ((serialGetC (2 ^ e) (serialRxCancel (2 ^ e) s)).1 = 0x18
      ∧ (serialGetC (2 ^ e) (serialGetC (2 ^ e) (serialRxCancel (2 ^ e) s)).2).1 = -1)
    ∧ ((serial2GetC (2 ^ e) (serial2RxCancel (2 ^ e) s)).1 = 0x18
      ∧ (serial2GetC (2 ^ e) (serial2GetC (2 ^ e) (serial2RxCancel (2 ^ e) s)).2).1 = -1) := by
  have h2 : 2 ^ 1 ≤ 2 ^ e := Nat.pow_le_pow_right (by decide) he
  have h16 : 2 ^ e ≤ 2 ^ 16 := Nat.pow_le_pow_right (by decide) he16
  have hN : 0 < 2 ^ e := Nat.two_pow_pos e
  constructor
  · have hm := mod_two_cases (s.rxbuf.head + 1) (2 ^ e) (by omega)
    have hne : s.rxbuf.head ≠ (s.rxbuf.head + 1) % 2 ^ e := by omega
    have hstep : serialGetC (2 ^ e) (serialRxCancel (2 ^ e) s)
        = (0x18, { s with rxbuf := { s.rxbuf with
            data := store s.rxbuf.data s.rxbuf.head ASCII_CAN,
            tail := (s.rxbuf.head + 1) % 2 ^ e,
            head := (s.rxbuf.head + 1) % 2 ^ e } }) := by
      simp [serialGetC, serialRxCancel, BUFNEXT_pow, hne, store, ASCII_CAN]
    rw [hstep]
    exact ⟨rfl, by simp [serialGetC]⟩
  · have hm := mod_two_cases (s.rxbuf2.head + 1) (2 ^ e) (by omega)
    have hne : s.rxbuf2.head ≠ (s.rxbuf2.head + 1) % 2 ^ e := by omega
    have hb : s.rxbuf2.head % 65536 = s.rxbuf2.head := Nat.mod_eq_of_lt (by omega)
    have hdvd : 2 ^ e ∣ 65536 := by
      have : (65536 : Nat) = 2 ^ 16 := by norm_num
      rw [this]
      exact Nat.pow_dvd_pow 2 he16
    have hb1 : (s.rxbuf2.head + 1) % 65536 % 2 ^ e = (s.rxbuf2.head + 1) % 2 ^ e :=
      Nat.mod_mod_of_dvd _ hdvd
    have hb2 : (s.rxbuf2.head + 1) % 2 ^ e % 65536 = (s.rxbuf2.head + 1) % 2 ^ e :=
      Nat.mod_eq_of_lt (by omega)
    have hstep : serial2GetC (2 ^ e) (serial2RxCancel (2 ^ e) s)
        = (0x18, { s with rxbuf2 := { s.rxbuf2 with
            data := store s.rxbuf2.data s.rxbuf2.head ASCII_CAN,
            tail := (s.rxbuf2.head + 1) % 2 ^ e,
            head := (s.rxbuf2.head + 1) % 2 ^ e } }) := by
      simp [serial2GetC, serial2RxCancel, Nat.and_pow_two_sub_one_eq_mod, hne, hb, hb1, store,
        ASCII_CAN]
    rw [hstep]
    exact ⟨rfl, by simp [serial2GetC, hb2]⟩

/-- An instance of `C3_cancel_leaves_one_CAN`: `N = 4`, a full first-port buffer
(head 1, tail 2) and the zero-initialised second port. -/
theorem C3_cancel_leaves_one_CAN_witness :
    (serialGetC (2 ^ 2) (serialRxCancel (2 ^ 2) (exampleState 1 2 0 0))).1 = 0x18 :=
  (C3_cancel_leaves_one_CAN 2 (exampleState 1 2 0 0) (by decide) (by decide) (by decide)
    (by decide)).1.1

/-! ## The receive buffer of the second port -/

theorem UART2_IRQHandler_rxbuf2 (N M : Nat) (s : State W) :
    (UART2_IRQHandler N M s).rxbuf2 = (UART2_IRQHandler_rx N s).rxbuf2 := by
  have htx : ∀ t : State W, (UART2_IRQHandler_tx M t).rxbuf2 = t.rxbuf2 := by
    intro t
    unfold UART2_IRQHandler_tx
    split
    · dsimp only
      split <;> split <;> rfl
    · rfl
  have herr : ∀ t : State W, (UART2_IRQHandler_err t).rxbuf2 = t.rxbuf2 := by
    intro t
    unfold UART2_IRQHandler_err
    dsimp only
    split <;> rfl
  unfold UART2_IRQHandler
  rw [herr, htx]

theorem two_pow_le_65536 (e : Nat) (he : e ≤ 16) : 2 ^ e ≤ 65536 := by
  have h : 2 ^ e ≤ 2 ^ 16 := Nat.pow_le_pow_right (by decide) he
  have : (2 : Nat) ^ 16 = 65536 := by norm_num
  omega

theorem UART2_IRQHandler_rx_valid (e : Nat) (he : e ≤ 16) (s : State W)
    (hh : s.rxbuf2.head < 2 ^ e) (ht : s.rxbuf2.tail < 2 ^ e) :
    (UART2_IRQHandler_rx (2 ^ e) s).rxbuf2.head < 2 ^ e
      ∧ (UART2_IRQHandler_rx (2 ^ e) s).rxbuf2.tail < 2 ^ e := by
  have hN : 0 < 2 ^ e := Nat.two_pow_pos e
  have h16 := two_pow_le_65536 e he
  have hlt : (s.rxbuf2.head + 1) % 2 ^ e < 2 ^ e := Nat.mod_lt _ hN
  have hnext : ((s.rxbuf2.head + 1) &&& (2 ^ e - 1)) % 65536 = (s.rxbuf2.head + 1) % 2 ^ e := by
    rw [Nat.and_pow_two_sub_one_eq_mod]
    exact Nat.mod_eq_of_lt (by omega)
  unfold UART2_IRQHandler_rx
  split
  · dsimp only
    rw [hnext]
    split
    · exact ⟨hh, ht⟩
    · split
      · exact ⟨hlt, ht⟩
      · exact ⟨hh, ht⟩
  · exact ⟨hh, ht⟩

theorem serial2GetC_valid (e : Nat) (s : State W)
    (hh : s.rxbuf2.head < 2 ^ e) (ht : s.rxbuf2.tail < 2 ^ e) :
    (serial2GetC (2 ^ e) s).2.rxbuf2.head < 2 ^ e
      ∧ (serial2GetC (2 ^ e) s).2.rxbuf2.tail < 2 ^ e := by
  have hN : 0 < 2 ^ e := Nat.two_pow_pos e
  unfold serial2GetC
  dsimp only
  split
  · exact ⟨hh, ht⟩
  · dsimp only
    rw [Nat.and_pow_two_sub_one_eq_mod]
    exact ⟨hh, Nat.mod_lt _ hN⟩

theorem rx2Step_valid (e M : Nat) (he : e ≤ 16) (op : Rx2Op) (s : State W)
    (hh : s.rxbuf2.head < 2 ^ e) (ht : s.rxbuf2.tail < 2 ^ e) :
    (rx2Step (2 ^ e) M op s).rxbuf2.head < 2 ^ e
      ∧ (rx2Step (2 ^ e) M op s).rxbuf2.tail < 2 ^ e := by
  have hN : 0 < 2 ^ e := Nat.two_pow_pos e
  cases op with
  | irq isr rdr =>
    simp only [rx2Step]
    rw [UART2_IRQHandler_rxbuf2]
    exact UART2_IRQHandler_rx_valid e he _ hh ht
  | getC => exact serial2GetC_valid e s hh ht
  | flush => exact ⟨hh, hh⟩
  | cancel =>
    simp only [rx2Step, serial2RxCancel]
    rw [Nat.and_pow_two_sub_one_eq_mod]
    exact ⟨Nat.mod_lt _ hN, hh⟩

theorem rx2Run_valid (e M : Nat) (he : e ≤ 16) (ops : List Rx2Op) (s : State W)
    (hh : s.rxbuf2.head < 2 ^ e) (ht : s.rxbuf2.tail < 2 ^ e) :
    (rx2Run (2 ^ e) M ops s).rxbuf2.head < 2 ^ e
      ∧ (rx2Run (2 ^ e) M ops s).rxbuf2.tail < 2 ^ e := by
  induction ops generalizing s with
  | nil => exact ⟨hh, ht⟩
  | cons op rest ih =>
    obtain ⟨h1, h2⟩ := rx2Step_valid e M he op s hh ht
    exact ih _ h1 h2

theorem BUFCOUNT_eq_emod (N head tail : Nat) (hh : head < N) (ht : tail < N) :
    (BUFCOUNT head tail N : Int) = ((head : Int) - (tail : Int)) % (N : Int)
      ∧ BUFCOUNT head tail N ≤ N - 1 := by
  unfold BUFCOUNT
  split
  · constructor
    · rw [Int.emod_eq_of_lt (by omega) (by omega)]
      omega
    · omega
  · constructor
    · rw [← Int.add_emod_self, Int.emod_eq_of_lt (by omega) (by omega)]
      omega
    · omega

/-- C4: count invariant on the second port. For `N = 2 ^ e` with `N ≤ 65536`, in
every state reached from a zero-initialised `rxbuf2` by any finite sequence of
`UART2_IRQHandler` invocations, `serial2GetC`, `serial2RxFlush` and
`serial2RxCancel` calls, `serial2RxCount()` equals `(head - tail) mod N` and is
at most `N - 1`. -/
theorem C4_rx2_count_invariant (e M : Nat) (he : e ≤ 16) (s0 : State W) (ops : List Rx2Op)
    (hhead : s0.rxbuf2.head = 0) (htail : s0.rxbuf2.tail = 0) :
    (serial2RxCount (2 ^ e) (rx2Run (2 ^ e) M ops s0) : Int)
        = (((rx2Run (2 ^ e) M ops s0).rxbuf2.head : Int)
            - ((rx2Run (2 ^ e) M ops s0).rxbuf2.tail : Int)) % ((2 ^ e : Nat) : Int)
      ∧ serial2RxCount (2 ^ e) (rx2Run (2 ^ e) M ops s0) ≤ 2 ^ e - 1 := by
  have hN : 0 < 2 ^ e := Nat.two_pow_pos e
  have h16 := two_pow_le_65536 e he
  obtain ⟨h1, h2⟩ := rx2Run_valid e M he ops s0 (by rw [hhead]; exact hN) (by rw [htail]; exact hN)
  obtain ⟨c1, c2⟩ := BUFCOUNT_eq_emod (2 ^ e) _ _ h1 h2
  have hsmall : serial2RxCount (2 ^ e) (rx2Run (2 ^ e) M ops s0)
      = BUFCOUNT (rx2Run (2 ^ e) M ops s0).rxbuf2.head (rx2Run (2 ^ e) M ops s0).rxbuf2.tail
          (2 ^ e) := by
    unfold serial2RxCount
    exact Nat.mod_eq_of_lt (by omega)
  rw [hsmall]
  exact ⟨c1, c2⟩

/-- An instance of `C4_rx2_count_invariant`: `N = 4`, five received bytes (the
fourth and fifth find the buffer full), a read, a cancel and a further byte. -/
theorem C4_rx2_count_invariant_witness :
    serial2RxCount (2 ^ 2) (rx2Run (2 ^ 2) 8
      [Rx2Op.irq 0x20 1, Rx2Op.irq 0x20 2, Rx2Op.irq 0x20 3, Rx2Op.irq 0x20 4, Rx2Op.irq 0x20 5,
        Rx2Op.getC, Rx2Op.cancel, Rx2Op.irq 0x20 6] (exampleState 0 0 0 0)) ≤ 2 ^ 2 - 1 :=
  (C4_rx2_count_invariant 2 8 (by decide) (exampleState 0 0 0 0)
    [Rx2Op.irq 0x20 1, Rx2Op.irq 0x20 2, Rx2Op.irq 0x20 3, Rx2Op.irq 0x20 4, Rx2Op.irq 0x20 5,
      Rx2Op.getC, Rx2Op.cancel, Rx2Op.irq 0x20 6] rfl rfl).2

/-! ## Writing to the transmit buffer -/

theorem serialPutC_full_decline (M fuel c : Nat) (cb : W → Bool × W) (s : State W)
    (hfull : s.txbuf.tail = BUFNEXT M s.txbuf.head) (hcb : (cb s.world).1 = false) :
    serialPutC M cb (fuel + 1) c s = some (false, { s with world := (cb s.world).2 }) := by
  simp [serialPutC, serialPutC_wait, hfull, hcb]

/-- C5: write abandonment is atomic. When the transmit buffer is full and the
blocking callback declines on its first call, `serialPutC(c)` returns `false`
and the state afterwards is the state before with the external state advanced
by exactly one callback call: `txbuf.head`, `txbuf.tail`, every `txbuf.data`
slot and `USART->CR1` are as before. -/
theorem C5_write_abandon_atomic (M fuel c : Nat) (cb : W → Bool × W) (s : State W)
    (hfull : s.txbuf.tail = BUFNEXT M s.txbuf.head) (hcb : (cb s.world).1 = false) :
    serialPutC M cb (fuel + 1) c s = some (false, { s with world := (cb s.world).2 })
      ∧ ∀ r, serialPutC M cb (fuel + 1) c s = some r →
          r.1 = false ∧ r.2.txbuf.head = s.txbuf.head ∧ r.2.txbuf.tail = s.txbuf.tail
            ∧ r.2.txbuf.data = s.txbuf.data ∧ r.2.USART.CR1 = s.USART.CR1
            ∧ r.2.world = (cb s.world).2 := by
  have h := serialPutC_full_decline M fuel c cb s hfull hcb
  refine ⟨h, ?_⟩
  intro r hr
  rw [h] at hr
  cases hr
  exact ⟨rfl, rfl, rfl, rfl, rfl, rfl⟩

/-- An instance of `C5_write_abandon_atomic`: `M = 4`, a full transmit buffer
(head 0, tail 1) and a callback that declines; the counter shows one call. -/
theorem C5_write_abandon_atomic_witness :
    serialPutC 4 declineAndCount (0 + 1) 0x41 (exampleState 0 0 0 1)
      = some (false, { exampleState 0 0 0 1 with world := 1 }) :=
  (C5_write_abandon_atomic 4 0 0x41 declineAndCount (exampleState 0 0 0 1) (by decide) rfl).1

theorem serialPutC_free (M fuel c : Nat) (cb : W → Bool × W) (s : State W)
    (hfree : s.txbuf.tail ≠ BUFNEXT M s.txbuf.head) :
    serialPutC M cb (fuel + 1) c s
      = some (true, { s with
          txbuf := { s.txbuf with data := store s.txbuf.data s.txbuf.head (c % 256),
                                  head := BUFNEXT M s.txbuf.head },
          USART := { s.USART with CR1 := s.USART.CR1 ||| USART_CR1_TXEIE } }) := by
  simp [serialPutC, serialPutC_wait, hfree]

theorem serialPutC_wait_full (fuel next_head : Nat) (cb : W → Bool × W) (s : State W)
    (hfull : s.txbuf.tail = next_head) :
    serialPutC_wait cb next_head fuel s = none
      ∨ ∃ w, serialPutC_wait cb next_head fuel s = some (false, { s with world := w }) := by
  induction fuel generalizing s with
  | zero => exact Or.inl rfl
  | succ fuel ih =>
    unfold serialPutC_wait
    rw [if_pos hfull]
    dsimp only
    by_cases hcb : (cb s.world).1 = true
    · rw [if_pos hcb]
      rcases ih { s with world := (cb s.world).2 } hfull with h | ⟨w, h⟩
      · exact Or.inl h
      · exact Or.inr ⟨w, h⟩
    · rw [if_neg hcb]
      exact Or.inr ⟨_, rfl⟩

theorem serialPutC_full (M fuel c : Nat) (cb : W → Bool × W) (s : State W)
    (hfull : s.txbuf.tail = BUFNEXT M s.txbuf.head) :
    serialPutC M cb fuel c s = none
      ∨ ∃ w, serialPutC M cb fuel c s = some (false, { s with world := w }) := by
  unfold serialPutC
  dsimp only
  rcases serialPutC_wait_full fuel (BUFNEXT M s.txbuf.head) cb s hfull with h | ⟨w, h⟩
  · rw [h]
    exact Or.inl rfl
  · rw [h]
    exact Or.inr ⟨w, rfl⟩

theorem serialPutC_zero (M c : Nat) (cb : W → Bool × W) (s : State W) :
    serialPutC M cb 0 c s = none := rfl

theorem serialWriteS_eq_serialWrite (M fuel : Nat) (cb : W → Bool × W) (s : List Nat)
    (st : State W) (hs : ∀ c ∈ s, 0 < c ∧ c < 256) :
    serialWriteS M cb fuel s st = serialWrite M cb fuel s s.length st := by
  induction s generalizing st with
  | nil => rfl
  | cons c rest ih =>
    have hc := hs c (List.mem_cons_self _ _)
    have hne : ¬ c % 256 = 0 := by rw [Nat.mod_eq_of_lt hc.2]; omega
    simp only [serialWriteS, serialWrite, List.length_cons, if_neg hne, List.headD_cons,
      List.tail_cons]
    cases serialPutC M cb fuel c st with
    | none => rfl
    | some r => exact ih r.2 (fun x hx => hs x (List.mem_cons_of_mem _ hx))

/-- Whatever the callback does, the bytes a terminating `serialWrite` has
enqueued are the longest initial segment of `s` that fits. -/
theorem serialWrite_enqueued (m fuel : Nat) (cb : W → Bool × W) (s : List Nat)
    (st st1 : State W) (hh : st.txbuf.head < 2 ^ m) (ht : st.txbuf.tail < 2 ^ m)
    (hs : ∀ c ∈ s, c < 256)
    (hrun : serialWrite (2 ^ m) cb fuel s s.length st = some st1) :
    ringList (2 ^ m) st1.txbuf.data st1.txbuf.head st1.txbuf.tail
        = ringList (2 ^ m) st.txbuf.data st.txbuf.head st.txbuf.tail
          ++ s.take (2 ^ m - 1 - ringCount (2 ^ m) st.txbuf.head st.txbuf.tail)
      ∧ st1.txbuf.tail = st.txbuf.tail := by
  have hN : 0 < 2 ^ m := Nat.two_pow_pos m
  induction s generalizing st with
  | nil =>
    simp only [serialWrite, List.length_nil, Option.some.injEq] at hrun
    subst hrun
    simp
  | cons c rest ih =>
    have hc := hs c (List.mem_cons_self _ _)
    have hrest : ∀ x ∈ rest, x < 256 := fun x hx => hs x (List.mem_cons_of_mem _ hx)
    simp only [serialWrite, List.length_cons, List.headD_cons, List.tail_cons] at hrun
    by_cases hfull : st.txbuf.tail = BUFNEXT (2 ^ m) st.txbuf.head
    · have hcnt := ringCount_full (2 ^ m) st.txbuf.head st.txbuf.tail hh ht
        (by rw [← BUFNEXT_pow]; exact hfull)
      rcases serialPutC_full (2 ^ m) fuel c cb st hfull with h | ⟨w, h⟩
      · rw [h] at hrun
        cases hrun
      · rw [h] at hrun
        have := ih { st with world := w } hh ht hrest hrun
        simp only [hcnt, Nat.sub_self, List.take_zero, List.append_nil] at this ⊢
        exact this
    · cases fuel with
      | zero =>
        rw [serialPutC_zero] at hrun
        cases hrun
      | succ fuel =>
        rw [serialPutC_free (2 ^ m) fuel c cb st hfull] at hrun
        rw [BUFNEXT_pow] at hfull hrun
        dsimp only at hrun
        have hcnt := ringCount_next_head (2 ^ m) st.txbuf.head st.txbuf.tail hh ht hfull
        have hc2 := ringCount_lt (2 ^ m) ((st.txbuf.head + 1) % 2 ^ m) st.txbuf.tail hN
        have hlist := ringList_push (2 ^ m) st.txbuf.data st.txbuf.head st.txbuf.tail (c % 256)
          hh ht hfull
        have := ih { st with
            txbuf := { st.txbuf with data := store st.txbuf.data st.txbuf.head (c % 256),
                                     head := (st.txbuf.head + 1) % 2 ^ m },
            USART := { st.USART with CR1 := st.USART.CR1 ||| USART_CR1_TXEIE } }
          (Nat.mod_lt _ hN) ht hrest hrun
        rw [Nat.mod_eq_of_lt hc] at hlist
        simp only [hcnt, Nat.mod_eq_of_lt hc, hlist] at this
        have hk : 2 ^ m - 1 - ringCount (2 ^ m) st.txbuf.head st.txbuf.tail
            = (2 ^ m - 1 - (ringCount (2 ^ m) st.txbuf.head st.txbuf.tail + 1)) + 1 := by omega
        refine ⟨?_, this.2⟩
        rw [this.1, hk, List.take_succ_cons, List.append_assoc]
        rfl

/-- With a callback that always declines, `serialWrite` returns, and the
callback has been consulted once for every byte that did not fit. -/
theorem serialWrite_declined (m fuel : Nat) (cb : W → Bool × W) (s : List Nat)
    (st : State W) (hh : st.txbuf.head < 2 ^ m) (ht : st.txbuf.tail < 2 ^ m)
    (hcb : ∀ w, (cb w).1 = false) :
    ∃ st1, serialWrite (2 ^ m) cb (fuel + 1) s s.length st = some st1
      ∧ st1.world = Nat.iterate (fun w => (cb w).2)
          (s.length - (2 ^ m - 1 - ringCount (2 ^ m) st.txbuf.head st.txbuf.tail)) st.world := by
  have hN : 0 < 2 ^ m := Nat.two_pow_pos m
  induction s generalizing st with
  | nil => exact ⟨st, rfl, by simp⟩
  | cons c rest ih =>
    simp only [serialWrite, List.length_cons, List.headD_cons, List.tail_cons]
    by_cases hfull : st.txbuf.tail = BUFNEXT (2 ^ m) st.txbuf.head
    · have hcnt := ringCount_full (2 ^ m) st.txbuf.head st.txbuf.tail hh ht
        (by rw [← BUFNEXT_pow]; exact hfull)
      rw [serialPutC_full_decline (2 ^ m) fuel c cb st hfull (hcb _)]
      obtain ⟨st1, h1, h2⟩ := ih { st with world := (cb st.world).2 } hh ht
      refine ⟨st1, h1, ?_⟩
      rw [h2]
      simp only [hcnt, Nat.sub_self, Nat.sub_zero, Function.iterate_succ_apply]
    · rw [serialPutC_free (2 ^ m) fuel c cb st hfull]
      rw [BUFNEXT_pow] at hfull ⊢
      have hcnt := ringCount_next_head (2 ^ m) st.txbuf.head st.txbuf.tail hh ht hfull
      have hc2 := ringCount_lt (2 ^ m) ((st.txbuf.head + 1) % 2 ^ m) st.txbuf.tail hN
      obtain ⟨st1, h1, h2⟩ := ih { st with
          txbuf := { st.txbuf with data := store st.txbuf.data st.txbuf.head (c % 256),
                                   head := (st.txbuf.head + 1) % 2 ^ m },
          USART := { st.USART with CR1 := st.USART.CR1 ||| USART_CR1_TXEIE } }
        (Nat.mod_lt _ hN) ht
      refine ⟨st1, h1, ?_⟩
      rw [h2]
      simp only [hcnt]
      congr 1
      omega

/-- C6, as stated, fails: with `TX_BUFFER_SIZE = 4`, a full transmit buffer and
a callback that declines, the write of the first byte of `"ab"` fails, yet
after `serialWriteS("ab")`, and likewise after `serialWrite("ab", 2)`, the
callback has been consulted twice: the second byte was passed to `serialPutC`
and the callback was asked again after it had declined. -/
theorem C6_counterexample :
    (serialPutC 4 declineAndCount 1 0x61 (exampleState 0 0 0 1)).map (fun r => (r.1, r.2.world))
        = some (false, 1)
      ∧ (serialWriteS 4 declineAndCount 1 [0x61, 0x62] (exampleState 0 0 0 1)).map
          (fun st => st.world) = some 2
      ∧ (serialWrite 4 declineAndCount 1 [0x61, 0x62] 2 (exampleState 0 0 0 1)).map
          (fun st => st.world) = some 2 := by
  decide

/-- C6 (amended): `serialWriteS(s)` and `serialWrite(s, n)` pass every byte of
`s` to `serialPutC` and ignore its result. For a string `s` of non-NUL bytes,
`TX_BUFFER_SIZE = 2 ^ m` and valid indices: whenever the call returns, the
bytes it has enqueued are the initial segment of `s` that fits in the free
slots, so they are a prefix of `s`; and with a callback that always declines
the call returns after consulting the callback once for each byte that did
not fit, so the callback is consulted again after it has declined. -/
theorem C6_write_continues_after_failure (m fuel : Nat) (cb : W → Bool × W) (s : List Nat)
    (st : State W) (hh : st.txbuf.head < 2 ^ m) (ht : st.txbuf.tail < 2 ^ m)
    (hs : ∀ c ∈ s, 0 < c ∧ c < 256) :
    (∀ st1, (serialWriteS (2 ^ m) cb fuel s st = some st1
          ∨ serialWrite (2 ^ m) cb fuel s s.length st = some st1) →
        ringList (2 ^ m) st1.txbuf.data st1.txbuf.head st1.txbuf.tail
            = ringList (2 ^ m) st.txbuf.data st.txbuf.head st.txbuf.tail
              ++ s.take (2 ^ m - 1 - ringCount (2 ^ m) st.txbuf.head st.txbuf.tail)
          ∧ st1.txbuf.tail = st.txbuf.tail)
      ∧ ((∀ w, (cb w).1 = false) →
          ∃ st1, serialWriteS (2 ^ m) cb (fuel + 1) s st = some st1
            ∧ serialWrite (2 ^ m) cb (fuel + 1) s s.length st = some st1
            ∧ st1.world = Nat.iterate (fun w => (cb w).2)
                (s.length - (2 ^ m - 1 - ringCount (2 ^ m) st.txbuf.head st.txbuf.tail))
                st.world) := by
  constructor
  · intro st1 hrun
    have hrun1 : serialWrite (2 ^ m) cb fuel s s.length st = some st1 := by
      rcases hrun with h | h
      · rw [← serialWriteS_eq_serialWrite (2 ^ m) fuel cb s st hs]
        exact h
      · exact h
    exact serialWrite_enqueued m fuel cb s st st1 hh ht (fun c hc => (hs c hc).2) hrun1
  · intro hcb
    obtain ⟨st1, h1, h2⟩ := serialWrite_declined m fuel cb s st hh ht hcb
    exact ⟨st1, by rw [serialWriteS_eq_serialWrite (2 ^ m) (fuel + 1) cb s st hs]; exact h1, h1, h2⟩

/-- An instance of `C6_write_continues_after_failure`: the string `"ab"` written to the
full transmit buffer with a callback that declines and counts. -/
theorem C6_write_continues_after_failure_witness :
    ∃ st1, serialWriteS (2 ^ 2) declineAndCount (0 + 1) [0x61, 0x62] (exampleState 0 0 0 1)
        = some st1
      ∧ serialWrite (2 ^ 2) declineAndCount (0 + 1) [0x61, 0x62] 2 (exampleState 0 0 0 1)
        = some st1
      ∧ st1.world = Nat.iterate (fun w => (declineAndCount w).2)
          (2 - (2 ^ 2 - 1 - ringCount (2 ^ 2) 0 1)) 0 :=
  (C6_write_continues_after_failure 2 0 declineAndCount [0x61, 0x62] (exampleState 0 0 0 1)
    (by decide) (by decide) (by decide)).2 (fun _ => rfl)

/-! ## Single steps of the receive path -/

/-- C7: `serialGetC` reports "no data" exactly when the buffer is empty. It
returns `-1` if and only if `rxbuf.tail == rxbuf.head`; in that case the state
is unchanged; otherwise it returns the byte stored at `data[tail]` and sets
`tail` to `(tail + 1) & (N - 1)`, leaving everything else as it was. -/
theorem C7_getC_no_data_iff_empty (N : Nat) (s : State W) :
    ((serialGetC N s).1 = -1 ↔ s.rxbuf.tail = s.rxbuf.head)
      ∧ (s.rxbuf.tail = s.rxbuf.head → serialGetC N s = (-1, s))
      ∧ (s.rxbuf.tail ≠ s.rxbuf.head →
          serialGetC N s
            = ((s.rxbuf.data s.rxbuf.tail : Int),
                { s with rxbuf := { s.rxbuf with tail := (s.rxbuf.tail + 1) &&& (N - 1) } })) := by
  refine ⟨?_, serialGetC_empty N s, serialGetC_nonempty N s⟩
  constructor
  · intro h
    by_contra hne
    rw [serialGetC_nonempty N s hne] at h
    have h1 : (s.rxbuf.data s.rxbuf.tail : Int) = -1 := h
    omega
  · intro h
    rw [serialGetC_empty N s h]

/-- C8: a byte consumed by the realtime handler never enters the RX queue. At
a receive-ready invocation of `USART_IRQHandler` (with `N = 2 ^ e`), if the
installed handler returns true for the byte read, `rxbuf` (head, tail, data,
overflow) is unchanged; if it returns false and the buffer is not full, the
byte is stored at `data[head]` and head advances by one modulo `N`. -/
theorem C8_consumed_byte_not_queued (e M : Nat) (s : State W)
    (hrx : flagSet s.USART.ISR USART_ISR_RXNE = true) :
    ((s.enqueue_realtime_command (s.USART.RDR % 256) s.world).1 = true →
        (USART_IRQHandler (2 ^ e) M s).rxbuf = s.rxbuf)
      ∧ ((s.enqueue_realtime_command (s.USART.RDR % 256) s.world).1 = false →
          s.rxbuf.tail ≠ BUFNEXT (2 ^ e) s.rxbuf.head →
          (USART_IRQHandler (2 ^ e) M s).rxbuf
            = { s.rxbuf with data := store s.rxbuf.data s.rxbuf.head (s.USART.RDR % 256),
                             head := (s.rxbuf.head + 1) % 2 ^ e }) := by
  constructor
  · intro hrt
    rw [USART_IRQHandler_rxbuf]
    unfold USART_IRQHandler_rx
    rw [if_pos hrx]
    dsimp only
    rw [hrt]
    rfl
  · intro hrt hfree
    rw [USART_IRQHandler_rxbuf, USART_IRQHandler_rx_push _ _ hrx hrt]
    unfold rxPush
    rw [if_neg hfree, BUFNEXT_pow]

/-- An instance of `C8_consumed_byte_not_queued`: the handler `consumeCAN` is
installed and the byte received is `ASCII_CAN`. -/
theorem C8_consumed_byte_not_queued_witness :
    (USART_IRQHandler (2 ^ 2) 4 (rxReadyState 0x18)).rxbuf = (rxReadyState 0x18).rxbuf :=
  (C8_consumed_byte_not_queued 2 4 (rxReadyState 0x18) (by decide)).1 (by decide)

/-- C9, evaluated where the code departs from it: with `rxbuf2` full, a
receive-ready invocation of `UART2_IRQHandler` reads `RDR` once but does not
call the installed handler (the external state is untouched although the
handler would consume the byte and count it), leaves `rxbuf2` as it was and
raises the overflow flag of the first port's `rxbuf`. -/
theorem C9_full_rx2_skips_handler :
    consumeCAN (rx2FullState.UART2.RDR % 256) rx2FullState.world = (true, 1)
      ∧ (UART2_IRQHandler 4 4 rx2FullState).world = 0
      ∧ (UART2_IRQHandler 4 4 rx2FullState).UART2.rdrReads = 1
      ∧ (UART2_IRQHandler 4 4 rx2FullState).rxbuf2.head = 0
      ∧ (UART2_IRQHandler 4 4 rx2FullState).rxbuf2.tail = 1
      ∧ (UART2_IRQHandler 4 4 rx2FullState).rxbuf2.overflow = false
      ∧ (UART2_IRQHandler 4 4 rx2FullState).rxbuf.overflow = true := by
  decide

/-- C10: `serialSetBaudRate` flushes the first port. For every state and every
baud rate it returns true, and afterwards `rxbuf.tail == rxbuf.head` and
`txbuf.tail == txbuf.head`, so both counts are 0 and `serialGetC` returns `-1`;
both head indices are unchanged. -/
theorem C10_set_baud_rate_flushes (N M : Nat) (div : Nat → Nat → Nat) (pclk baud_rate : Nat)
    (s : State W) :
    (serialSetBaudRate div pclk baud_rate s).1 = true
      ∧ (serialSetBaudRate div pclk baud_rate s).2.rxbuf.tail
          = (serialSetBaudRate div pclk baud_rate s).2.rxbuf.head
      ∧ (serialSetBaudRate div pclk baud_rate s).2.txbuf.tail
          = (serialSetBaudRate div pclk baud_rate s).2.txbuf.head
      ∧ BUFCOUNT (serialSetBaudRate div pclk baud_rate s).2.rxbuf.head
          (serialSetBaudRate div pclk baud_rate s).2.rxbuf.tail N = 0
      ∧ BUFCOUNT (serialSetBaudRate div pclk baud_rate s).2.txbuf.head
          (serialSetBaudRate div pclk baud_rate s).2.txbuf.tail M = 0
      ∧ (serialGetC N (serialSetBaudRate div pclk baud_rate s).2).1 = -1
      ∧ (serialSetBaudRate div pclk baud_rate s).2.rxbuf.head = s.rxbuf.head
      ∧ (serialSetBaudRate div pclk baud_rate s).2.txbuf.head = s.txbuf.head := by
  refine ⟨rfl, rfl, rfl, ?_, ?_, ?_, rfl, rfl⟩
  · simp [serialSetBaudRate, BUFCOUNT]
  · simp [serialSetBaudRate, BUFCOUNT]
  · rw [serialGetC_empty N _ rfl]

/-! ## The second port's baud-rate change and the state of the other port -/

/-- C11, evaluated where the code departs from it: with 3 bytes queued in
`rxbuf2` and 2 in `txbuf2`, after `serial2SetBaudRate` the second port's
buffers are as before (`serial2RxCount()` is still 3, `txbuf2` still holds 2),
while the first port's `rxbuf` and `txbuf` have been flushed instead. -/
theorem C11_serial2SetBaudRate_leaves_port2_queued :
    serial2RxCount 16 port2QueuedState = 3
      ∧ (serial2SetBaudRate (fun p b => (p + b / 2) / b) 54000000 115200 port2QueuedState).1 = true
      ∧ serial2RxCount 16
          (serial2SetBaudRate (fun p b => (p + b / 2) / b) 54000000 115200 port2QueuedState).2 = 3
      ∧ (serial2SetBaudRate (fun p b => (p + b / 2) / b) 54000000 115200
          port2QueuedState).2.rxbuf2.head = 3
      ∧ (serial2SetBaudRate (fun p b => (p + b / 2) / b) 54000000 115200
          port2QueuedState).2.rxbuf2.tail = 0
      ∧ (serial2SetBaudRate (fun p b => (p + b / 2) / b) 54000000 115200
          port2QueuedState).2.txbuf2.head = 2
      ∧ (serial2SetBaudRate (fun p b => (p + b / 2) / b) 54000000 115200
          port2QueuedState).2.txbuf2.tail = 0 := by
  decide

/-- C12, evaluated where the code departs from it: `serial2SetBaudRate` moves
the first port's `rxbuf.tail` and `txbuf.tail` (from 0 to 1, flushing one
queued byte each), and `UART2_IRQHandler` on a full `rxbuf2` sets the first
port's `rxbuf.overflow`. -/
theorem C12_port2_operations_write_port1 :
    (port2QueuedState.rxbuf.tail = 0 ∧ port2QueuedState.txbuf.tail = 0)
      ∧ (serial2SetBaudRate (fun p b => (p + b / 2) / b) 54000000 115200
          port2QueuedState).2.rxbuf.tail = 1
      ∧ (serial2SetBaudRate (fun p b => (p + b / 2) / b) 54000000 115200
          port2QueuedState).2.txbuf.tail = 1
      ∧ rx2FullState.rxbuf.overflow = false
      ∧ (UART2_IRQHandler 4 4 rx2FullState).rxbuf.overflow = true := by
  decide

/-! ## What each operation of the first port writes -/

theorem serialPutC_wait_result (cb : W → Bool × W) (next_head fuel : Nat) (s : State W)
    (r : Bool × State W) (h : serialPutC_wait cb next_head fuel s = some r) :
    ∃ w, r.2 = { s with world := w } ∧ (r.1 = true → s.txbuf.tail ≠ next_head) := by
  induction fuel generalizing s with
  | zero => cases h
  | succ fuel ih =>
    unfold serialPutC_wait at h
    by_cases hfull : s.txbuf.tail = next_head
    · rw [if_pos hfull] at h
      dsimp only at h
      by_cases hcb : (cb s.world).1 = true
      · rw [if_pos hcb] at h
        obtain ⟨w, h1, h2⟩ := ih _ h
        exact ⟨w, h1, fun hr => absurd hfull (h2 hr)⟩
      · rw [if_neg hcb] at h
        cases h
        exact ⟨_, rfl, fun hr => by cases hr⟩
    · rw [if_neg hfull] at h
      cases h
      exact ⟨s.world, rfl, fun _ => hfull⟩

/-- The two ways `serialPutC` returns: abandoned, with nothing but the
external state changed, or with the byte enqueued and `TXEIE` set. -/
theorem serialPutC_result (M fuel c : Nat) (cb : W → Bool × W) (s : State W)
    (r : Bool × State W) (h : serialPutC M cb fuel c s = some r) :
    ∃ w, r = (false, { s with world := w })
      ∨ (s.txbuf.tail ≠ BUFNEXT M s.txbuf.head
          ∧ r = (true, { s with
              world := w,
              txbuf := { s.txbuf with data := store s.txbuf.data s.txbuf.head (c % 256),
                                      head := BUFNEXT M s.txbuf.head },
              USART := { s.USART with CR1 := s.USART.CR1 ||| USART_CR1_TXEIE } })) := by
  unfold serialPutC at h
  dsimp only at h
  cases hw : serialPutC_wait cb (BUFNEXT M s.txbuf.head) fuel s with
  | none =>
    rw [hw] at h
    cases h
  | some r1 =>
    obtain ⟨w, h1, h2⟩ := serialPutC_wait_result cb _ fuel s r1 hw
    rw [hw] at h
    obtain ⟨b, s1⟩ := r1
    dsimp only at h1 h2
    subst h1
    cases b with
    | false =>
      cases h
      exact ⟨w, Or.inl rfl⟩
    | true =>
      cases h
      exact ⟨w, Or.inr ⟨h2 rfl, rfl⟩⟩

theorem serialPutC_frame (M fuel c : Nat) (cb : W → Bool × W) (s : State W)
    (r : Bool × State W) (h : serialPutC M cb fuel c s = some r) :
    r.2.rxbuf = s.rxbuf ∧ r.2.txbuf.tail = s.txbuf.tail := by
  obtain ⟨w, h1 | ⟨_, h1⟩⟩ := serialPutC_result M fuel c cb s r h
  · rw [h1]
    exact ⟨rfl, rfl⟩
  · rw [h1]
    exact ⟨rfl, rfl⟩

theorem serialWriteS_frame (M fuel : Nat) (cb : W → Bool × W) (str : List Nat)
    (st st1 : State W) (h : serialWriteS M cb fuel str st = some st1) :
    st1.rxbuf = st.rxbuf ∧ st1.txbuf.tail = st.txbuf.tail := by
  induction str generalizing st with
  | nil =>
    cases h
    exact ⟨rfl, rfl⟩
  | cons c rest ih =>
    unfold serialWriteS at h
    by_cases hz : c % 256 = 0
    · rw [if_pos hz] at h
      cases h
      exact ⟨rfl, rfl⟩
    · rw [if_neg hz] at h
      cases hp : serialPutC M cb fuel c st with
      | none =>
        rw [hp] at h
        cases h
      | some r =>
        rw [hp] at h
        obtain ⟨f1, f2⟩ := serialPutC_frame M fuel c cb st r hp
        obtain ⟨g1, g2⟩ := ih r.2 h
        exact ⟨g1.trans f1, g2.trans f2⟩

theorem serialWrite_frame (M fuel : Nat) (cb : W → Bool × W) (str : List Nat) (length : Nat)
    (st st1 : State W) (h : serialWrite M cb fuel str length st = some st1) :
    st1.rxbuf = st.rxbuf ∧ st1.txbuf.tail = st.txbuf.tail := by
  induction length generalizing st str with
  | zero =>
    cases h
    exact ⟨rfl, rfl⟩
  | succ n ih =>
    unfold serialWrite at h
    cases hp : serialPutC M cb fuel (str.headD 0) st with
    | none =>
      rw [hp] at h
      cases h
    | some r =>
      rw [hp] at h
      obtain ⟨f1, f2⟩ := serialPutC_frame M fuel _ cb st r hp
      obtain ⟨g1, g2⟩ := ih str.tail r.2 h
      exact ⟨g1.trans f1, g2.trans f2⟩

theorem USART_IRQHandler_rx_tail (N : Nat) (s : State W) :
    (USART_IRQHandler_rx N s).rxbuf.tail = s.rxbuf.tail := by
  unfold USART_IRQHandler_rx
  split
  · dsimp only
    split
    · split <;> rfl
    · rfl
  · rfl

theorem USART_IRQHandler_rx_txbuf (N : Nat) (s : State W) :
    (USART_IRQHandler_rx N s).txbuf = s.txbuf
      ∧ (USART_IRQHandler_rx N s).USART.CR1 = s.USART.CR1
      ∧ (USART_IRQHandler_rx N s).USART.ISR = s.USART.ISR
      ∧ (USART_IRQHandler_rx N s).USART.tdrWrites = s.USART.tdrWrites := by
  unfold USART_IRQHandler_rx
  split
  · dsimp only
    split
    · split <;> exact ⟨rfl, rfl, rfl, rfl⟩
    · exact ⟨rfl, rfl, rfl, rfl⟩
  · exact ⟨rfl, rfl, rfl, rfl⟩

theorem USART_IRQHandler_ore_txbuf (s : State W) :
    (USART_IRQHandler_ore s).txbuf = s.txbuf
      ∧ (USART_IRQHandler_ore s).USART.CR1 = s.USART.CR1
      ∧ (USART_IRQHandler_ore s).USART.tdrWrites = s.USART.tdrWrites := by
  unfold USART_IRQHandler_ore
  split <;> exact ⟨rfl, rfl, rfl⟩

theorem USART_IRQHandler_tx_head (M : Nat) (s : State W) :
    (USART_IRQHandler_tx M s).txbuf.head = s.txbuf.head
      ∧ (USART_IRQHandler_tx M s).txbuf.data = s.txbuf.data := by
  unfold USART_IRQHandler_tx
  split
  · dsimp only
    split <;> exact ⟨rfl, rfl⟩
  · exact ⟨rfl, rfl⟩

/-- C13, as stated, fails: `serialRxCancel` writes `rxbuf.head` (0 becomes 1)
and `serialSetBaudRate` writes `txbuf.tail` (0 becomes 1, dropping the queued
byte). -/
theorem C13_counterexample :
    (exampleState 0 0 1 0).rxbuf.head = 0
      ∧ (serialRxCancel 4 (exampleState 0 0 1 0)).rxbuf.head = 1
      ∧ (exampleState 0 0 1 0).txbuf.tail = 0
      ∧ (serialSetBaudRate (fun p b => (p + b / 2) / b) 54000000 115200
          (exampleState 0 0 1 0)).2.txbuf.tail = 1 := by
  decide

/-- C13 (amended): index ownership on the first port. `USART_IRQHandler` leaves
`rxbuf.tail` and `txbuf.head` as they are; `serialGetC`, `serialRxFlush`,
`serialPutC`, `serialWriteS` and `serialWrite` leave `rxbuf.head` and
`txbuf.tail` as they are (`serialRxFree` only reads); `serialRxCancel` leaves
`txbuf.tail` but sets `rxbuf.head` to `BUFNEXT(rxbuf.head)`; and
`serialSetBaudRate` leaves `rxbuf.head` but sets `txbuf.tail` to `txbuf.head`. -/
theorem C13_index_ownership (N M : Nat) (s : State W) :
    ((USART_IRQHandler N M s).rxbuf.tail = s.rxbuf.tail
        ∧ (USART_IRQHandler N M s).txbuf.head = s.txbuf.head)
      ∧ ((serialGetC N s).2.rxbuf.head = s.rxbuf.head
        ∧ (serialGetC N s).2.txbuf.tail = s.txbuf.tail)
      ∧ ((serialRxFlush s).rxbuf.head = s.rxbuf.head
        ∧ (serialRxFlush s).txbuf.tail = s.txbuf.tail)
      ∧ (∀ cb fuel c r, serialPutC M cb fuel c s = some r →
          r.2.rxbuf.head = s.rxbuf.head ∧ r.2.txbuf.tail = s.txbuf.tail)
      ∧ (∀ cb fuel str st1, serialWriteS M cb fuel str s = some st1 →
          st1.rxbuf.head = s.rxbuf.head ∧ st1.txbuf.tail = s.txbuf.tail)
      ∧ (∀ cb fuel str length st1, serialWrite M cb fuel str length s = some st1 →
          st1.rxbuf.head = s.rxbuf.head ∧ st1.txbuf.tail = s.txbuf.tail)
      ∧ ((serialRxCancel N s).txbuf.tail = s.txbuf.tail
        ∧ (serialRxCancel N s).rxbuf.head = BUFNEXT N s.rxbuf.head)
      ∧ (∀ div pclk baud_rate,
          (serialSetBaudRate div pclk baud_rate s).2.rxbuf.head = s.rxbuf.head
            ∧ (serialSetBaudRate div pclk baud_rate s).2.txbuf.tail = s.txbuf.head) := by
  refine ⟨⟨?_, ?_⟩, ⟨(serialGetC_frame N s).1, ?_⟩, ⟨rfl, rfl⟩, ?_, ?_, ?_, ⟨rfl, rfl⟩, ?_⟩
  · rw [USART_IRQHandler_rxbuf, USART_IRQHandler_rx_tail]
  · unfold USART_IRQHandler
    rw [(USART_IRQHandler_ore_txbuf _).1, (USART_IRQHandler_tx_head M _).1,
      (USART_IRQHandler_rx_txbuf N s).1]
  · unfold serialGetC
    dsimp only
    split <;> rfl
  · intro cb fuel c r h
    obtain ⟨f1, f2⟩ := serialPutC_frame M fuel c cb s r h
    exact ⟨by rw [f1], f2⟩
  · intro cb fuel str st1 h
    obtain ⟨f1, f2⟩ := serialWriteS_frame M fuel cb str s st1 h
    exact ⟨by rw [f1], f2⟩
  · intro cb fuel str length st1 h
    obtain ⟨f1, f2⟩ := serialWrite_frame M fuel cb str length s st1 h
    exact ⟨by rw [f1], f2⟩
  · intro div pclk baud_rate
    exact ⟨rfl, rfl⟩

/-! ## Validity of the indices -/

theorem BUFNEXT_lt (N p : Nat) (hN : 0 < N) : BUFNEXT N p < N := by
  unfold BUFNEXT
  have h : (p + 1) &&& (N - 1) ≤ N - 1 := Nat.and_le_right
  omega

theorem USART_IRQHandler_rx_valid (N : Nat) (hN : 0 < N) (s : State W)
    (hh : s.rxbuf.head < N) : (USART_IRQHandler_rx N s).rxbuf.head < N := by
  unfold USART_IRQHandler_rx
  split
  · dsimp only
    split
    · split
      · exact hh
      · exact BUFNEXT_lt N _ hN
    · exact hh
  · exact hh

theorem USART_IRQHandler_tx_valid (M : Nat) (hM : 0 < M) (s : State W)
    (ht : s.txbuf.tail < M) : (USART_IRQHandler_tx M s).txbuf.tail < M := by
  unfold USART_IRQHandler_tx
  split
  · dsimp only
    split <;> exact BUFNEXT_lt M _ hM
  · exact ht

theorem USART_IRQHandler_valid (N M : Nat) (hN : 0 < N) (hM : 0 < M) (s : State W)
    (hv : indicesValid N M s) : indicesValid N M (USART_IRQHandler N M s) := by
  obtain ⟨h1, h2, h3, h4⟩ := hv
  have hrx := USART_IRQHandler_rx_txbuf N s
  refine ⟨?_, ?_, ?_, ?_⟩
  · rw [USART_IRQHandler_rxbuf]
    exact USART_IRQHandler_rx_valid N hN s h1
  · rw [USART_IRQHandler_rxbuf, USART_IRQHandler_rx_tail]
    exact h2
  · unfold USART_IRQHandler
    rw [(USART_IRQHandler_ore_txbuf _).1, (USART_IRQHandler_tx_head M _).1, hrx.1]
    exact h3
  · unfold USART_IRQHandler
    rw [(USART_IRQHandler_ore_txbuf _).1]
    exact USART_IRQHandler_tx_valid M hM _ (by rw [hrx.1]; exact h4)

theorem serialPutC_valid (N M fuel c : Nat) (hM : 0 < M) (cb : W → Bool × W) (s : State W)
    (r : Bool × State W) (hv : indicesValid N M s) (h : serialPutC M cb fuel c s = some r) :
    indicesValid N M r.2 := by
  obtain ⟨h1, h2, h3, h4⟩ := hv
  obtain ⟨w, hr | ⟨_, hr⟩⟩ := serialPutC_result M fuel c cb s r h
  · rw [hr]
    exact ⟨h1, h2, h3, h4⟩
  · rw [hr]
    exact ⟨h1, h2, BUFNEXT_lt M _ hM, h4⟩

/-- C14: the indices of the first port stay valid under every code path. For
buffer sizes `N, M > 0`, the predicate `rxbuf.head < N`, `rxbuf.tail < N`,
`txbuf.head < M`, `txbuf.tail < M` holds for the zero-initialised state and is
preserved by `serialGetC`, `serialRxFlush`, `serialRxCancel`, `serialPutC`
however it returns, `serialSetBaudRate`, and `USART_IRQHandler` whatever the
flags in `ISR` and `CR1` (a transmit-ready event on an empty buffer included). -/
theorem C14_indices_stay_valid (N M : Nat) (hN : 0 < N) (hM : 0 < M) :
    (∀ s : State W, s.rxbuf.head = 0 → s.rxbuf.tail = 0 → s.txbuf.head = 0 →
        s.txbuf.tail = 0 → indicesValid N M s)
      ∧ ∀ s : State W, indicesValid N M s →
          indicesValid N M (serialGetC N s).2
            ∧ indicesValid N M (serialRxFlush s)
            ∧ indicesValid N M (serialRxCancel N s)
            ∧ (∀ cb fuel c r, serialPutC M cb fuel c s = some r → indicesValid N M r.2)
            ∧ (∀ div pclk baud_rate,
                indicesValid N M (serialSetBaudRate div pclk baud_rate s).2)
            ∧ indicesValid N M (USART_IRQHandler N M s) := by
  constructor
  · intro s a b c d
    exact ⟨by rw [a]; exact hN, by rw [b]; exact hN, by rw [c]; exact hM, by rw [d]; exact hM⟩
  · intro s hv
    have hv1 := hv
    obtain ⟨h1, h2, h3, h4⟩ := hv
    refine ⟨?_, ⟨h1, h1, h3, h4⟩, ⟨BUFNEXT_lt N _ hN, h1, h3, h4⟩, ?_, ?_,
      USART_IRQHandler_valid N M hN hM s hv1⟩
    · unfold serialGetC
      dsimp only
      split
      · exact ⟨h1, h2, h3, h4⟩
      · exact ⟨h1, BUFNEXT_lt N _ hN, h3, h4⟩
    · intro cb fuel c r h
      exact serialPutC_valid N M fuel c hM cb s r hv1 h
    · intro div pclk baud_rate
      exact ⟨h1, h1, h3, h3⟩

/-- An instance of `C14_indices_stay_valid`: `N = M = 4`, and a transmit-ready
interrupt (`TXE` and `TXEIE` set) on an empty transmit buffer at index 3. -/
theorem C14_indices_stay_valid_witness :
    indicesValid 4 4 (USART_IRQHandler 4 4
      { exampleState 0 0 3 3 with USART := { resetRegs with ISR := 0x80, CR1 := 0x80 } }) :=
  ((C14_indices_stay_valid 4 4 (by decide) (by decide)).2
    { exampleState 0 0 3 3 with USART := { resetRegs with ISR := 0x80, CR1 := 0x80 } }
    ⟨by decide, by decide, by decide, by decide⟩).2.2.2.2.2

/-! ## The realtime handler -/

theorem USART_IRQHandler_world_eq (N M : Nat) (s : State W) :
    (USART_IRQHandler N M s).world = (USART_IRQHandler_rx N s).world := by
  have htx : ∀ t : State W, (USART_IRQHandler_tx M t).world = t.world := by
    intro t
    unfold USART_IRQHandler_tx
    split
    · dsimp only
      split <;> rfl
    · rfl
  have hore : ∀ t : State W, (USART_IRQHandler_ore t).world = t.world := by
    intro t
    unfold USART_IRQHandler_ore
    split <;> rfl
  unfold USART_IRQHandler
  rw [hore, htx]

/-- At a receive-ready invocation the installed handler is applied once to the
byte read: the external state afterwards is the one the handler returns. -/
theorem USART_IRQHandler_world (N M : Nat) (s : State W)
    (hrx : flagSet s.USART.ISR USART_ISR_RXNE = true) :
    (USART_IRQHandler N M s).world
      = (s.enqueue_realtime_command (s.USART.RDR % 256) s.world).2 := by
  rw [USART_IRQHandler_world_eq]
  unfold USART_IRQHandler_rx
  rw [if_pos hrx]
  dsimp only
  split
  · split <;> rfl
  · rfl

theorem UART2_IRQHandler_world_eq (N M : Nat) (s : State W) :
    (UART2_IRQHandler N M s).world = (UART2_IRQHandler_rx N s).world := by
  have htx : ∀ t : State W, (UART2_IRQHandler_tx M t).world = t.world := by
    intro t
    unfold UART2_IRQHandler_tx
    split
    · dsimp only
      split <;> split <;> rfl
    · rfl
  have herr : ∀ t : State W, (UART2_IRQHandler_err t).world = t.world := by
    intro t
    unfold UART2_IRQHandler_err
    dsimp only
    split <;> rfl
  unfold UART2_IRQHandler
  rw [herr, htx]

/-- C15, as stated, fails for the null handler: after `serialSetRtHandler(NULL)`
on a port whose handler is `consumeCAN`, a received `ASCII_CAN` is still
consumed by `consumeCAN` (its counter goes to 1 and nothing is queued); the
previous handler has stayed installed. The same holds on the second port. -/
theorem C15_counterexample :
    (USART_IRQHandler 4 4 (serialSetRtHandler none (rxReadyState 0x18)).2).world = 1
      ∧ (USART_IRQHandler 4 4 (serialSetRtHandler none (rxReadyState 0x18)).2).rxbuf.head = 0
      ∧ (serialSetRtHandler none (rxReadyState 0x18)).2.enqueue_realtime_command 0x18 0
          = consumeCAN 0x18 0
      ∧ (serial2SetRtHandler none rx2FullState).2.enqueue_realtime_command2 0x18 0
          = consumeCAN 0x18 0 := by
  decide

/-- C15 (amended): installing a non-null realtime handler always succeeds and
returns the previous one. For every installed handler and every non-null `h`,
`serialSetRtHandler(h)` returns the previous handler, afterwards
`USART_IRQHandler` applies `h` to a received byte, and
`serialSetRtHandler(serialSetRtHandler(h))` restores the original handler;
`serialSetRtHandler(NULL)` returns the installed handler and changes nothing.
The same holds for `serial2SetRtHandler` and `enqueue_realtime_command2`. -/
theorem C15_set_handler_returns_previous (N M : Nat) (s : State W)
    (h : enqueue_realtime_command_ptr W) :
    ((serialSetRtHandler (some h) s).1 = s.enqueue_realtime_command
        ∧ (serialSetRtHandler (some h) s).2.enqueue_realtime_command = h
        ∧ (flagSet s.USART.ISR USART_ISR_RXNE = true →
            (USART_IRQHandler N M (serialSetRtHandler (some h) s).2).world
              = (h (s.USART.RDR % 256) s.world).2)
        ∧ (serialSetRtHandler (some (serialSetRtHandler (some h) s).1)
            (serialSetRtHandler (some h) s).2).2.enqueue_realtime_command
              = s.enqueue_realtime_command
        ∧ serialSetRtHandler none s = (s.enqueue_realtime_command, s))
      ∧ ((serial2SetRtHandler (some h) s).1 = s.enqueue_realtime_command2
        ∧ (serial2SetRtHandler (some h) s).2.enqueue_realtime_command2 = h
        ∧ (flagSet s.UART2.ISR USART_ISR_RXNE = true →
            s.rxbuf2.tail ≠ ((s.rxbuf2.head + 1) &&& (N - 1)) % 65536 →
            (UART2_IRQHandler N M (serial2SetRtHandler (some h) s).2).world
              = (h (s.UART2.RDR % 256) s.world).2)
        ∧ (serial2SetRtHandler (some (serial2SetRtHandler (some h) s).1)
            (serial2SetRtHandler (some h) s).2).2.enqueue_realtime_command2
              = s.enqueue_realtime_command2
        ∧ serial2SetRtHandler none s = (s.enqueue_realtime_command2, s)) := by
  refine ⟨⟨rfl, rfl, ?_, rfl, rfl⟩, ⟨rfl, rfl, ?_, rfl, rfl⟩⟩
  · intro hrx
    exact USART_IRQHandler_world N M (serialSetRtHandler (some h) s).2 hrx
  · intro hrx hfree
    rw [UART2_IRQHandler_world_eq]
    unfold UART2_IRQHandler_rx
    have hrx1 : flagSet (serial2SetRtHandler (some h) s).2.UART2.ISR USART_ISR_RXNE = true := hrx
    rw [if_pos hrx1]
    dsimp only
    have hfree1 : ¬ (serial2SetRtHandler (some h) s).2.rxbuf2.tail
        = ((serial2SetRtHandler (some h) s).2.rxbuf2.head + 1 &&& N - 1) % 65536 := hfree
    rw [if_neg hfree1]
    split <;> rfl

/-! ## No suspended mode in the interrupt routine -/

theorem USART_IRQHandler_rx_consumed (N : Nat) (s : State W)
    (hrx : flagSet s.USART.ISR USART_ISR_RXNE = true)
    (hrt : (s.enqueue_realtime_command (s.USART.RDR % 256) s.world).1 = true) :
    (USART_IRQHandler_rx N s).rxbuf = s.rxbuf := by
  unfold USART_IRQHandler_rx
  rw [if_pos hrx]
  dsimp only
  rw [hrt]
  rfl

/-- C16, as stated, fails: after `serialSuspendInput(true)` five ordinary bytes
received on an empty buffer (`N = 16`) are all queued, the count going from 0
to 5; and on a full buffer (`N = 4`, head 2, tail 3) one ordinary byte raises
`rxbuf.overflow` from 0 to 1. -/
theorem C16_counterexample :
    ringCount 16 (serialSuspendInput stream_rx_suspend true (exampleState 0 0 0 0)).2.rxbuf.head
        (serialSuspendInput stream_rx_suspend true (exampleState 0 0 0 0)).2.rxbuf.tail = 0
      ∧ ringCount 16
          (rxEvents 16 16 [(0x20, 0x61), (0x20, 0x62), (0x20, 0x63), (0x20, 0x64), (0x20, 0x65)]
            (serialSuspendInput stream_rx_suspend true (exampleState 0 0 0 0)).2).rxbuf.head
          (rxEvents 16 16 [(0x20, 0x61), (0x20, 0x62), (0x20, 0x63), (0x20, 0x64), (0x20, 0x65)]
            (serialSuspendInput stream_rx_suspend true (exampleState 0 0 0 0)).2).rxbuf.tail = 5
      ∧ (serialSuspendInput stream_rx_suspend true (exampleState 2 3 0 0)).2.rxbuf.overflow = false
      ∧ (rxEvents 4 4 [(0x20, 0x61)]
          (serialSuspendInput stream_rx_suspend true (exampleState 2 3 0 0)).2).rxbuf.overflow
          = true := by
  decide

/-- C16 (amended): `serialSuspendInput` only hands `rxbuf` to
`stream_rx_suspend`, and `USART_IRQHandler` has no suspended mode. After
`serialSuspendInput(true)`, with the buffer as the helper left it (indices
below `N = 2 ^ e`), a receive-ready invocation treats the byte as always: an
ordinary byte is queued when the buffer is not full (the count goes up by one,
`overflow` unchanged) and sets `overflow` when it is full (head, tail and data
unchanged); a byte the handler consumes has the handler applied to it and
leaves the buffer unchanged. -/
theorem C16_no_suspended_mode (e M : Nat)
    (f : stream_rx_buffer_t → Bool → Bool × stream_rx_buffer_t) (s : State W) (ev : Nat × Nat)
    (hrx : flagSet ev.1 USART_ISR_RXNE = true)
    (hh : (f s.rxbuf true).2.head < 2 ^ e) (ht : (f s.rxbuf true).2.tail < 2 ^ e) :
    ((s.enqueue_realtime_command (ev.2 % 256) s.world).1 = false →
        ((serialSuspendInput f true s).2.rxbuf.tail
              ≠ BUFNEXT (2 ^ e) (serialSuspendInput f true s).2.rxbuf.head →
            ringCount (2 ^ e) (rxEvent (2 ^ e) M ev (serialSuspendInput f true s).2).rxbuf.head
                (rxEvent (2 ^ e) M ev (serialSuspendInput f true s).2).rxbuf.tail
              = ringCount (2 ^ e) (serialSuspendInput f true s).2.rxbuf.head
                  (serialSuspendInput f true s).2.rxbuf.tail + 1
            ∧ (rxEvent (2 ^ e) M ev (serialSuspendInput f true s).2).rxbuf.overflow
              = (serialSuspendInput f true s).2.rxbuf.overflow)
          ∧ ((serialSuspendInput f true s).2.rxbuf.tail
              = BUFNEXT (2 ^ e) (serialSuspendInput f true s).2.rxbuf.head →
            (rxEvent (2 ^ e) M ev (serialSuspendInput f true s).2).rxbuf
              = { (serialSuspendInput f true s).2.rxbuf with overflow := true }))
      ∧ ((s.enqueue_realtime_command (ev.2 % 256) s.world).1 = true →
          (rxEvent (2 ^ e) M ev (serialSuspendInput f true s).2).world
              = (s.enqueue_realtime_command (ev.2 % 256) s.world).2
            ∧ (rxEvent (2 ^ e) M ev (serialSuspendInput f true s).2).rxbuf
              = (serialSuspendInput f true s).2.rxbuf) := by
  constructor
  · intro hrt
    have hpush : (rxEvent (2 ^ e) M ev (serialSuspendInput f true s).2).rxbuf
        = rxPush (2 ^ e) (ev.2 % 256) (serialSuspendInput f true s).2.rxbuf := by
      unfold rxEvent
      rw [USART_IRQHandler_rxbuf, USART_IRQHandler_rx_push _ _ hrx hrt]
    rw [hpush]
    unfold rxPush
    constructor
    · intro hfree
      rw [if_neg hfree]
      dsimp only
      rw [BUFNEXT_pow] at hfree ⊢
      exact ⟨ringCount_next_head (2 ^ e) _ _ hh ht hfree, rfl⟩
    · intro hfull
      rw [if_pos hfull]
  · intro hrt
    constructor
    · unfold rxEvent
      rw [USART_IRQHandler_world _ _ _ hrx]
      rfl
    · unfold rxEvent
      rw [USART_IRQHandler_rxbuf, USART_IRQHandler_rx_consumed _ _ hrx hrt]

/-- An instance of `C16_no_suspended_mode`: the helper modelled from the spec,
`N = 4`, an empty buffer and the ordinary byte `0x41`, which is queued. -/
theorem C16_no_suspended_mode_witness :
    ringCount (2 ^ 2)
        (rxEvent (2 ^ 2) 4 (0x20, 0x41)
          (serialSuspendInput stream_rx_suspend true (rxReadyState 0)).2).rxbuf.head
        (rxEvent (2 ^ 2) 4 (0x20, 0x41)
          (serialSuspendInput stream_rx_suspend true (rxReadyState 0)).2).rxbuf.tail
      = ringCount (2 ^ 2) (serialSuspendInput stream_rx_suspend true (rxReadyState 0)).2.rxbuf.head
          (serialSuspendInput stream_rx_suspend true (rxReadyState 0)).2.rxbuf.tail + 1
      ∧ (rxEvent (2 ^ 2) 4 (0x20, 0x41)
          (serialSuspendInput stream_rx_suspend true (rxReadyState 0)).2).rxbuf.overflow
        = (serialSuspendInput stream_rx_suspend true (rxReadyState 0)).2.rxbuf.overflow :=
  ((C16_no_suspended_mode 2 4 stream_rx_suspend (rxReadyState 0) (0x20, 0x41) (by decide)
    (by decide) (by decide)).1 (by decide)).1 (by decide)

/-! ## Register bits -/

theorem flagSet_two_pow (r k : Nat) : flagSet r (2 ^ k) = r.testBit k := by
  unfold flagSet
  cases hb : r.testBit k with
  | true =>
    have h1 : (r &&& 2 ^ k).testBit k = true := by
      rw [Nat.testBit_and, hb, Nat.testBit_two_pow_self]
      rfl
    have hne : r &&& 2 ^ k ≠ 0 := by
      intro h0
      rw [h0, Nat.zero_testBit] at h1
      cases h1
    simpa using hne
  | false =>
    have h0 : r &&& 2 ^ k = 0 := by
      apply Nat.eq_of_testBit_eq
      intro i
      rw [Nat.testBit_and, Nat.zero_testBit, Nat.testBit_two_pow]
      by_cases hki : k = i
      · subst hki
        rw [hb]
        rfl
      · simp [hki]
    simp [h0]

theorem clearMask_testBit (r k i : Nat) (hi : i < 32) :
    (clearMask r (2 ^ k)).testBit i = (r.testBit i && decide (i ≠ k)) := by
  unfold clearMask
  have hall : (0xFFFFFFFF : Nat) = 2 ^ 32 - 1 := by norm_num
  rw [Nat.testBit_and, Nat.testBit_xor, hall, Nat.testBit_two_pow_sub_one, Nat.testBit_two_pow]
  by_cases hki : k = i
  · subst hki
    simp [hi]
  · have hik : i ≠ k := fun h => hki h.symm
    simp [hi, hki, hik]

theorem or_two_pow_testBit (r k i : Nat) :
    (r ||| 2 ^ k).testBit i = (r.testBit i || decide (k = i)) := by
  rw [Nat.testBit_or, Nat.testBit_two_pow]

theorem USART_CR1_TXEIE_eq : USART_CR1_TXEIE = 2 ^ 7 := by decide

theorem USART_ISR_TXE_eq : USART_ISR_TXE = 2 ^ 7 := by decide

/-! ## The transmit path -/

/-- What the transmit-ready block does, in terms of the fields it touches. -/
theorem USART_IRQHandler_tx_spec (M : Nat) (t : State W) :
    (USART_IRQHandler_tx M t).txbuf
        = (if (flagSet t.USART.ISR USART_ISR_TXE && flagSet t.USART.CR1 USART_CR1_TXEIE) = true
            then { t.txbuf with tail := BUFNEXT M t.txbuf.tail } else t.txbuf)
      ∧ (USART_IRQHandler_tx M t).USART.tdrWrites
        = (if (flagSet t.USART.ISR USART_ISR_TXE && flagSet t.USART.CR1 USART_CR1_TXEIE) = true
            then t.USART.tdrWrites ++ [t.txbuf.data t.txbuf.tail] else t.USART.tdrWrites)
      ∧ (USART_IRQHandler_tx M t).USART.CR1
        = (if (flagSet t.USART.ISR USART_ISR_TXE && flagSet t.USART.CR1 USART_CR1_TXEIE) = true
            then (if BUFNEXT M t.txbuf.tail = t.txbuf.head
              then clearMask t.USART.CR1 USART_CR1_TXEIE else t.USART.CR1)
            else t.USART.CR1) := by
  unfold USART_IRQHandler_tx
  by_cases harm : (flagSet t.USART.ISR USART_ISR_TXE && flagSet t.USART.CR1 USART_CR1_TXEIE) = true
  · rw [if_pos harm, if_pos harm, if_pos harm, if_pos harm]
    dsimp only
    by_cases hemp : BUFNEXT M t.txbuf.tail = t.txbuf.head
    · rw [if_pos hemp, if_pos hemp]
      exact ⟨rfl, rfl, rfl⟩
    · rw [if_neg hemp, if_neg hemp]
      exact ⟨rfl, rfl, rfl⟩
  · rw [if_neg harm, if_neg harm, if_neg harm, if_neg harm]
    exact ⟨rfl, rfl, rfl⟩

/-- The transmit side of a whole invocation of `USART_IRQHandler`. -/
theorem USART_IRQHandler_tx_effect (N M : Nat) (s : State W) :
    (USART_IRQHandler N M s).txbuf
        = (if (flagSet s.USART.ISR USART_ISR_TXE && flagSet s.USART.CR1 USART_CR1_TXEIE) = true
            then { s.txbuf with tail := BUFNEXT M s.txbuf.tail } else s.txbuf)
      ∧ (USART_IRQHandler N M s).USART.tdrWrites
        = (if (flagSet s.USART.ISR USART_ISR_TXE && flagSet s.USART.CR1 USART_CR1_TXEIE) = true
            then s.USART.tdrWrites ++ [s.txbuf.data s.txbuf.tail] else s.USART.tdrWrites)
      ∧ (USART_IRQHandler N M s).USART.CR1
        = (if (flagSet s.USART.ISR USART_ISR_TXE && flagSet s.USART.CR1 USART_CR1_TXEIE) = true
            then (if BUFNEXT M s.txbuf.tail = s.txbuf.head
              then clearMask s.USART.CR1 USART_CR1_TXEIE else s.USART.CR1)
            else s.USART.CR1) := by
  obtain ⟨r1, r2, r3, r4⟩ := USART_IRQHandler_rx_txbuf N s
  obtain ⟨t1, t2, t3⟩ := USART_IRQHandler_tx_spec M (USART_IRQHandler_rx N s)
  obtain ⟨o1, o2, o3⟩ := USART_IRQHandler_ore_txbuf (USART_IRQHandler_tx M (USART_IRQHandler_rx N s))
  simp only [r1, r2, r3, r4] at t1 t2 t3
  unfold USART_IRQHandler
  rw [o1, o2, o3]
  exact ⟨t1, t2, t3⟩

/-- C17: the transmit-ready step. At an invocation of `USART_IRQHandler` with
`TXE` set in `ISR`: if `TXEIE` is set in `CR1`, the routine writes
`txbuf.data[tail]` to `TDR`, sets `txbuf.tail` to `(tail + 1) & (M - 1)`, leaves
`txbuf.head` and `txbuf.data` unchanged, and afterwards `TXEIE` is clear if and
only if the new tail equals head, every other bit of the 32-bit `CR1` being
unchanged; if `TXEIE` is clear, `txbuf`, `CR1` and `TDR` are untouched. -/
theorem C17_transmit_ready_step (N M : Nat) (s : State W)
    (htxe : flagSet s.USART.ISR USART_ISR_TXE = true) :
    (flagSet s.USART.CR1 USART_CR1_TXEIE = true →
        (USART_IRQHandler N M s).USART.tdrWrites
            = s.USART.tdrWrites ++ [s.txbuf.data s.txbuf.tail]
          ∧ (USART_IRQHandler N M s).txbuf.tail = (s.txbuf.tail + 1) &&& (M - 1)
          ∧ (USART_IRQHandler N M s).txbuf.head = s.txbuf.head
          ∧ (USART_IRQHandler N M s).txbuf.data = s.txbuf.data
          ∧ (flagSet (USART_IRQHandler N M s).USART.CR1 USART_CR1_TXEIE = false
              ↔ (s.txbuf.tail + 1) &&& (M - 1) = s.txbuf.head)
          ∧ ∀ i, i < 32 → i ≠ 7 →
              (USART_IRQHandler N M s).USART.CR1.testBit i = s.USART.CR1.testBit i)
      ∧ (flagSet s.USART.CR1 USART_CR1_TXEIE = false →
          (USART_IRQHandler N M s).txbuf = s.txbuf
            ∧ (USART_IRQHandler N M s).USART.CR1 = s.USART.CR1
            ∧ (USART_IRQHandler N M s).USART.tdrWrites = s.USART.tdrWrites) := by
  obtain ⟨e1, e2, e3⟩ := USART_IRQHandler_tx_effect N M s
  constructor
  · intro hie
    have harm : (flagSet s.USART.ISR USART_ISR_TXE && flagSet s.USART.CR1 USART_CR1_TXEIE) = true := by
      rw [htxe, hie]
      rfl
    rw [if_pos harm] at e1 e2 e3
    rw [e1, e2, e3]
    refine ⟨rfl, rfl, rfl, rfl, ?_, ?_⟩
    · unfold BUFNEXT
      by_cases hemp : (s.txbuf.tail + 1) &&& (M - 1) = s.txbuf.head
      · rw [if_pos hemp, USART_CR1_TXEIE_eq, flagSet_two_pow, clearMask_testBit _ _ _ (by decide)]
        simp [hemp]
      · rw [if_neg hemp, hie]
        simp [hemp]
    · intro i hi hne
      split
      · rw [USART_CR1_TXEIE_eq, clearMask_testBit _ _ _ hi]
        simp [hne]
      · rfl
  · intro hie
    have harm : ¬ (flagSet s.USART.ISR USART_ISR_TXE && flagSet s.USART.CR1 USART_CR1_TXEIE) = true := by
      rw [htxe, hie]
      decide
    rw [if_neg harm] at e1 e2 e3
    exact ⟨e1, e3, e2⟩

/-- An instance of `C17_transmit_ready_step`: `M = 4`, two bytes queued
(head 2, tail 0), `TXE` set in `ISR`, `TXEIE` and `RXNEIE` set in `CR1`. -/
theorem C17_transmit_ready_step_witness :
    (USART_IRQHandler 4 4
        { exampleState 0 0 2 0 with USART := { resetRegs with ISR := 0x80, CR1 := 0xA0 } }).txbuf.tail
      = (0 + 1) &&& (4 - 1) :=
  ((C17_transmit_ready_step 4 4
    { exampleState 0 0 2 0 with USART := { resetRegs with ISR := 0x80, CR1 := 0xA0 } }
    (by decide)).1 (by decide)).2.1

/-- C18: transmission re-arms after a drain. For `M = 2 ^ m` with at least two
slots, an empty transmit buffer (`txbuf.tail == txbuf.head`, as the interrupt
routine leaves it after a drain, whatever `TXEIE` is) and a byte `c`:
`serialPutC(c)` returns true without calling the blocking callback, afterwards
`TXEIE` is set in `CR1` and every other bit of `CR1` (`RXNEIE` among them) is as
before, and the next invocation of `USART_IRQHandler` with `TXE` set writes
exactly `c` to `TDR`; `serialDisable` is not involved. -/
theorem C18_rearm_after_drain (m N fuel c : Nat) (cb : W → Bool × W) (s : State W)
    (hm : 1 ≤ m) (hc : c < 256) (hempty : s.txbuf.tail = s.txbuf.head) :
    ∃ s1, serialPutC (2 ^ m) cb (fuel + 1) c s = some (true, s1)
      ∧ s1.world = s.world
      ∧ flagSet s1.USART.CR1 USART_CR1_TXEIE = true
      ∧ (∀ i, i ≠ 7 → s1.USART.CR1.testBit i = s.USART.CR1.testBit i)
      ∧ ∀ isr rdr, flagSet isr USART_ISR_TXE = true →
          (USART_IRQHandler N (2 ^ m)
              { s1 with USART := { s1.USART with ISR := isr, RDR := rdr } }).USART.tdrWrites
            = s.USART.tdrWrites ++ [c] := by
  have h2 : 2 ^ 1 ≤ 2 ^ m := Nat.pow_le_pow_right (by decide) hm
  have hN : 0 < 2 ^ m := Nat.two_pow_pos m
  have hfree : s.txbuf.tail ≠ BUFNEXT (2 ^ m) s.txbuf.head := by
    rw [BUFNEXT_pow, hempty]
    have hlt := Nat.mod_lt (s.txbuf.head + 1) hN
    by_cases hh : s.txbuf.head < 2 ^ m
    · have hcases := mod_two_cases (s.txbuf.head + 1) (2 ^ m) (by omega)
      omega
    · omega
  have hbit : flagSet (s.USART.CR1 ||| USART_CR1_TXEIE) USART_CR1_TXEIE = true := by
    rw [USART_CR1_TXEIE_eq, flagSet_two_pow, or_two_pow_testBit]
    simp
  refine ⟨_, serialPutC_free (2 ^ m) fuel c cb s hfree, rfl, hbit, ?_, ?_⟩
  · intro i hi
    have hi7 : ¬ 7 = i := fun h => hi h.symm
    dsimp only
    rw [USART_CR1_TXEIE_eq, or_two_pow_testBit]
    simp [hi7]
  · intro isr rdr htxe
    obtain ⟨_, e2, _⟩ := USART_IRQHandler_tx_effect N (2 ^ m)
      { s with
        txbuf := { s.txbuf with data := store s.txbuf.data s.txbuf.head (c % 256),
                                head := BUFNEXT (2 ^ m) s.txbuf.head },
        USART := { s.USART with CR1 := s.USART.CR1 ||| USART_CR1_TXEIE, ISR := isr, RDR := rdr } }
    dsimp only at e2 ⊢
    rw [e2, htxe, hbit]
    simp [store, hempty, Nat.mod_eq_of_lt hc]

/-- An instance of `C18_rearm_after_drain`: `M = 4`, the transmit buffer empty
at index 3, `CR1` holding `RXNEIE` only, and the byte `0x41`. -/
theorem C18_rearm_after_drain_witness :
    ∃ s1, serialPutC (2 ^ 2) declineAndCount (0 + 1) 0x41
          { exampleState 0 0 3 3 with USART := { resetRegs with CR1 := 0x20 } } = some (true, s1)
      ∧ s1.world = 0
      ∧ flagSet s1.USART.CR1 USART_CR1_TXEIE = true
      ∧ (∀ i, i ≠ 7 → s1.USART.CR1.testBit i = (0x20 : Nat).testBit i)
      ∧ ∀ isr rdr, flagSet isr USART_ISR_TXE = true →
          (USART_IRQHandler 4 (2 ^ 2)
              { s1 with USART := { s1.USART with ISR := isr, RDR := rdr } }).USART.tdrWrites
            = [] ++ [0x41] :=
  C18_rearm_after_drain 2 4 0 0x41 declineAndCount
    { exampleState 0 0 3 3 with USART := { resetRegs with CR1 := 0x20 } }
    (by decide) (by decide) rfl

/-! ## The overflow flag and handler chaining -/

theorem USART_IRQHandler_rx_idle (N : Nat) (s : State W)
    (hrx : flagSet s.USART.ISR USART_ISR_RXNE = false) : USART_IRQHandler_rx N s = s := by
  unfold USART_IRQHandler_rx
  rw [hrx]
  rfl

/-- C19: overflow is flagged exactly on a failed enqueue. A receive-ready
invocation of `USART_IRQHandler` writes `rxbuf.overflow = 1` if and only if the
handler did not consume the byte and the buffer is full
(`rxbuf.tail == BUFNEXT(rxbuf.head)`), so the flag afterwards is its previous
value or-ed with that condition, and in that case head, tail and data are
unchanged; an invocation without `RXNE`, and the foreground operations
`serialGetC`, `serialRxFlush`, `serialRxCancel`, `serialSetBaudRate` and
`serialPutC`, leave the flag at its previous value. -/
theorem C19_overflow_flag (N M : Nat) (s : State W) :
    (flagSet s.USART.ISR USART_ISR_RXNE = true →
        (USART_IRQHandler N M s).rxbuf.overflow
            = (s.rxbuf.overflow
                || (!(s.enqueue_realtime_command (s.USART.RDR % 256) s.world).1
                    && decide (s.rxbuf.tail = BUFNEXT N s.rxbuf.head)))
          ∧ ((s.enqueue_realtime_command (s.USART.RDR % 256) s.world).1 = false →
              s.rxbuf.tail = BUFNEXT N s.rxbuf.head →
              (USART_IRQHandler N M s).rxbuf = { s.rxbuf with overflow := true }))
      ∧ (flagSet s.USART.ISR USART_ISR_RXNE = false →
          (USART_IRQHandler N M s).rxbuf = s.rxbuf)
      ∧ (serialGetC N s).2.rxbuf.overflow = s.rxbuf.overflow
      ∧ (serialRxFlush s).rxbuf.overflow = s.rxbuf.overflow
      ∧ (serialRxCancel N s).rxbuf.overflow = s.rxbuf.overflow
      ∧ (∀ div pclk baud_rate,
          (serialSetBaudRate div pclk baud_rate s).2.rxbuf.overflow = s.rxbuf.overflow)
      ∧ (∀ cb fuel c r, serialPutC M cb fuel c s = some r →
          r.2.rxbuf.overflow = s.rxbuf.overflow) := by
  refine ⟨?_, ?_, (serialGetC_frame N s).2.2, rfl, rfl, fun _ _ _ => rfl, ?_⟩
  · intro hrx
    rw [USART_IRQHandler_rxbuf]
    cases hrt : (s.enqueue_realtime_command (s.USART.RDR % 256) s.world).1 with
    | true =>
      rw [USART_IRQHandler_rx_consumed N s hrx hrt]
      exact ⟨by simp, fun h => by cases h⟩
    | false =>
      rw [USART_IRQHandler_rx_push N s hrx hrt]
      unfold rxPush
      by_cases hfull : s.rxbuf.tail = BUFNEXT N s.rxbuf.head
      · rw [if_pos hfull]
        exact ⟨by simp [hfull], fun _ _ => rfl⟩
      · rw [if_neg hfull]
        exact ⟨by simp [hfull], fun _ h => absurd h hfull⟩
  · intro hrx
    rw [USART_IRQHandler_rxbuf, USART_IRQHandler_rx_idle N s hrx]
  · intro cb fuel c r h
    rw [(serialPutC_frame M fuel c cb s r h).1]

/-- C20: interceptor chaining. Let `A` be the installed handler and let `B`
consume the bytes it recognises and hand every other byte to the handler that
`serialSetRtHandler(B)` returned. That returned handler is `A`; and for a byte
that `A` consumes and `B` does not recognise, a receive-ready invocation of
`USART_IRQHandler` applies `A` exactly once (the external state afterwards is
the one `A` returns) and leaves `rxbuf` (head, tail, data, overflow) unchanged. -/
theorem C20_interceptor_chaining (N M : Nat) (s : State W) (recognises : Nat → Bool)
    (effect : W → W) (hrx : flagSet s.USART.ISR USART_ISR_RXNE = true)
    (hB : recognises (s.USART.RDR % 256) = false)
    (hA : (s.enqueue_realtime_command (s.USART.RDR % 256) s.world).1 = true) :
    (serialSetRtHandler (some (chainHandler recognises effect s.enqueue_realtime_command)) s).1
        = s.enqueue_realtime_command
      ∧ (USART_IRQHandler N M (serialSetRtHandler
          (some (chainHandler recognises effect s.enqueue_realtime_command)) s).2).world
        = (s.enqueue_realtime_command (s.USART.RDR % 256) s.world).2
      ∧ (USART_IRQHandler N M (serialSetRtHandler
          (some (chainHandler recognises effect s.enqueue_realtime_command)) s).2).rxbuf
        = s.rxbuf := by
  have hcall : chainHandler recognises effect s.enqueue_realtime_command (s.USART.RDR % 256)
      s.world = s.enqueue_realtime_command (s.USART.RDR % 256) s.world := by
    unfold chainHandler
    rw [hB]
    rfl
  refine ⟨rfl, ?_, ?_⟩
  · rw [USART_IRQHandler_world N M (serialSetRtHandler
      (some (chainHandler recognises effect s.enqueue_realtime_command)) s).2 hrx]
    exact congrArg Prod.snd hcall
  · rw [USART_IRQHandler_rxbuf]
    exact USART_IRQHandler_rx_consumed N (serialSetRtHandler
      (some (chainHandler recognises effect s.enqueue_realtime_command)) s).2 hrx (by
      show (chainHandler recognises effect s.enqueue_realtime_command (s.USART.RDR % 256)
        s.world).1 = true
      rw [hcall]
      exact hA)

/-- An instance of `C20_interceptor_chaining`: `A` is `consumeCAN`, `B` recognises
only `0x11` (adding 100 to the counter), and the byte received is `ASCII_CAN`:
the counter goes from 0 to 1. -/
theorem C20_interceptor_chaining_witness :
    (USART_IRQHandler 4 4 (serialSetRtHandler
        (some (chainHandler (fun d => d == 0x11) (fun w => w + 100)
          (rxReadyState 0x18).enqueue_realtime_command)) (rxReadyState 0x18)).2).world
      = (consumeCAN 0x18 0).2 :=
  (C20_interceptor_chaining 4 4 (rxReadyState 0x18) (fun d => d == 0x11) (fun w => w + 100)
    (by decide) (by decide) (by decide)).2.1

/-! ## The operations that do keep to their own port -/

theorem serial2PutC_wait_samePort1 (cb : W → Bool × W) (next_head fuel : Nat) (s : State W)
    (r : Bool × State W) (h : serial2PutC_wait cb next_head fuel s = some r) :
    samePort1 s r.2 ∧ r.2.txbuf2 = s.txbuf2 := by
  induction fuel generalizing s with
  | zero => cases h
  | succ fuel ih =>
    unfold serial2PutC_wait at h
    by_cases hfull : s.txbuf2.tail = next_head
    · rw [if_pos hfull] at h
      dsimp only at h
      by_cases hcb : (cb s.world).1 = true
      · rw [if_pos hcb] at h
        have h2 := ih _ h
        exact h2
      · rw [if_neg hcb] at h
        cases h
        exact ⟨⟨rfl, rfl, rfl⟩, rfl⟩
    · rw [if_neg hfull] at h
      cases h
      exact ⟨⟨rfl, rfl, rfl⟩, rfl⟩

/-- The operations of the second port other than `serial2SetBaudRate` and
`UART2_IRQHandler` leave `rxbuf`, `txbuf` and `enqueue_realtime_command` as
they are; `UART2_IRQHandler` leaves them apart from `rxbuf.overflow`. -/
theorem port2_operations_keep_port1 (N M : Nat) (s : State W) :
    samePort1 s (serial2GetC N s).2
      ∧ samePort1 s (serial2RxFlush s)
      ∧ samePort1 s (serial2RxCancel N s)
      ∧ samePort1 s (serial2TxFlush s)
      ∧ (∀ d, samePort1 s (serial2Disable d s).2)
      ∧ (∀ h, samePort1 s (serial2SetRtHandler h s).2)
      ∧ (∀ cb fuel c r, serial2PutC M cb fuel c s = some r → samePort1 s r.2)
      ∧ ((UART2_IRQHandler N M s).txbuf = s.txbuf
          ∧ (UART2_IRQHandler N M s).enqueue_realtime_command = s.enqueue_realtime_command
          ∧ (UART2_IRQHandler N M s).rxbuf.head = s.rxbuf.head
          ∧ (UART2_IRQHandler N M s).rxbuf.tail = s.rxbuf.tail
          ∧ (UART2_IRQHandler N M s).rxbuf.data = s.rxbuf.data) := by
  refine ⟨?_, ⟨rfl, rfl, rfl⟩, ⟨rfl, rfl, rfl⟩, ⟨rfl, rfl, rfl⟩, ?_, ?_, ?_, ?_⟩
  · unfold serial2GetC
    dsimp only
    split <;> exact ⟨rfl, rfl, rfl⟩
  · intro d
    unfold serial2Disable
    split <;> exact ⟨rfl, rfl, rfl⟩
  · intro h
    cases h <;> exact ⟨rfl, rfl, rfl⟩
  · intro cb fuel c r h
    unfold serial2PutC at h
    dsimp only at h
    cases hw : serial2PutC_wait cb ((s.txbuf2.head + 1) &&& (M - 1)) fuel s with
    | none =>
      rw [hw] at h
      cases h
    | some r1 =>
      obtain ⟨⟨a, b, c1⟩, _⟩ := serial2PutC_wait_samePort1 cb _ fuel s r1 hw
      rw [hw] at h
      obtain ⟨ok, s1⟩ := r1
      cases ok with
      | false =>
        cases h
        exact ⟨a, b, c1⟩
      | true =>
        cases h
        exact ⟨a, b, c1⟩
  · have htx : ∀ t : State W, (UART2_IRQHandler_tx M t).rxbuf = t.rxbuf
        ∧ (UART2_IRQHandler_tx M t).txbuf = t.txbuf
        ∧ (UART2_IRQHandler_tx M t).enqueue_realtime_command = t.enqueue_realtime_command := by
      intro t
      unfold UART2_IRQHandler_tx
      split
      · dsimp only
        split <;> split <;> exact ⟨rfl, rfl, rfl⟩
      · exact ⟨rfl, rfl, rfl⟩
    have herr : ∀ t : State W, (UART2_IRQHandler_err t).rxbuf = t.rxbuf
        ∧ (UART2_IRQHandler_err t).txbuf = t.txbuf
        ∧ (UART2_IRQHandler_err t).enqueue_realtime_command = t.enqueue_realtime_command := by
      intro t
      unfold UART2_IRQHandler_err
      dsimp only
      split <;> exact ⟨rfl, rfl, rfl⟩
    have hrx : (UART2_IRQHandler_rx N s).txbuf = s.txbuf
        ∧ (UART2_IRQHandler_rx N s).enqueue_realtime_command = s.enqueue_realtime_command
        ∧ (UART2_IRQHandler_rx N s).rxbuf.head = s.rxbuf.head
        ∧ (UART2_IRQHandler_rx N s).rxbuf.tail = s.rxbuf.tail
        ∧ (UART2_IRQHandler_rx N s).rxbuf.data = s.rxbuf.data := by
      unfold UART2_IRQHandler_rx
      split
      · dsimp only
        split
        · exact ⟨rfl, rfl, rfl, rfl, rfl⟩
        · split <;> exact ⟨rfl, rfl, rfl, rfl, rfl⟩
      · exact ⟨rfl, rfl, rfl, rfl, rfl⟩
    unfold UART2_IRQHandler
    rw [(herr _).1, (herr _).2.1, (herr _).2.2, (htx _).1, (htx _).2.1, (htx _).2.2]
    exact hrx

/-- The operations of the first port leave `rxbuf2`, `txbuf2` and
`enqueue_realtime_command2` as they are. -/
theorem port1_operations_keep_port2 (N M : Nat) (s : State W) :
    samePort2 s (serialGetC N s).2
      ∧ samePort2 s (serialRxFlush s)
      ∧ samePort2 s (serialRxCancel N s)
      ∧ (∀ div pclk baud_rate, samePort2 s (serialSetBaudRate div pclk baud_rate s).2)
      ∧ (∀ d, samePort2 s (serialDisable d s).2)
      ∧ (∀ h, samePort2 s (serialSetRtHandler h s).2)
      ∧ (∀ cb fuel c r, serialPutC M cb fuel c s = some r → samePort2 s r.2)
      ∧ samePort2 s (USART_IRQHandler N M s) := by
  refine ⟨?_, ⟨rfl, rfl, rfl⟩, ⟨rfl, rfl, rfl⟩, fun _ _ _ => ⟨rfl, rfl, rfl⟩, ?_, ?_, ?_, ?_⟩
  · unfold serialGetC
    dsimp only
    split <;> exact ⟨rfl, rfl, rfl⟩
  · intro d
    unfold serialDisable
    split <;> exact ⟨rfl, rfl, rfl⟩
  · intro h
    cases h <;> exact ⟨rfl, rfl, rfl⟩
  · intro cb fuel c r h
    obtain ⟨w, hr | ⟨_, hr⟩⟩ := serialPutC_result M fuel c cb s r h
    · rw [hr]
      exact ⟨rfl, rfl, rfl⟩
    · rw [hr]
      exact ⟨rfl, rfl, rfl⟩
  · have hrx : samePort2 s (USART_IRQHandler_rx N s) := by
      unfold USART_IRQHandler_rx
      split
      · dsimp only
        split
        · split <;> exact ⟨rfl, rfl, rfl⟩
        · exact ⟨rfl, rfl, rfl⟩
      · exact ⟨rfl, rfl, rfl⟩
    have htx : ∀ t : State W, samePort2 t (USART_IRQHandler_tx M t) := by
      intro t
      unfold USART_IRQHandler_tx
      split
      · dsimp only
        split <;> exact ⟨rfl, rfl, rfl⟩
      · exact ⟨rfl, rfl, rfl⟩
    have hore : ∀ t : State W, samePort2 t (USART_IRQHandler_ore t) := by
      intro t
      unfold USART_IRQHandler_ore
      split <;> exact ⟨rfl, rfl, rfl⟩
    obtain ⟨a1, a2, a3⟩ := hrx
    obtain ⟨b1, b2, b3⟩ := htx (USART_IRQHandler_rx N s)
    obtain ⟨c1, c2, c3⟩ := hore (USART_IRQHandler_tx M (USART_IRQHandler_rx N s))
    exact ⟨c1.trans (b1.trans a1), c2.trans (b2.trans a2), c3.trans (b3.trans a3)⟩

/-! ## The free count -/

/-- On the first port the free count and the queue length add up to `N`, one
more than the `N - 1` bytes the ring can hold (for `N = 2 ^ e < 65536`). -/
theorem serialRxFree_add_count (e : Nat) (he : e ≤ 15) (s : State W)
    (hh : s.rxbuf.head < 2 ^ e) (ht : s.rxbuf.tail < 2 ^ e) :
    serialRxFree (2 ^ e) s + ringCount (2 ^ e) s.rxbuf.head s.rxbuf.tail = 2 ^ e := by
  have h15 : 2 ^ e ≤ 2 ^ 15 := Nat.pow_le_pow_right (by decide) he
  have hval : (2 : Nat) ^ 15 = 32768 := by norm_num
  have hm := mod_two_cases (s.rxbuf.head + 2 ^ e - s.rxbuf.tail) (2 ^ e) (by omega)
  unfold serialRxFree ringCount BUFCOUNT
  dsimp only
  rw [Nat.mod_eq_of_lt (show s.rxbuf.tail < 65536 by omega),
    Nat.mod_eq_of_lt (show s.rxbuf.head < 65536 by omega)]
  split
  · rw [Nat.mod_eq_of_lt (by omega)]
    omega
  · rw [Nat.mod_eq_of_lt (by omega)]
    omega

/-- On the second port the free count and the count add up to `N - 1` (for
`N = 2 ^ e ≤ 65536`). -/
theorem serial2RxFree_add_count (e : Nat) (he : e ≤ 16) (s : State W)
    (hh : s.rxbuf2.head < 2 ^ e) (ht : s.rxbuf2.tail < 2 ^ e) :
    serial2RxFree (2 ^ e) s + serial2RxCount (2 ^ e) s = 2 ^ e - 1 := by
  have h16 := two_pow_le_65536 e he
  unfold serial2RxFree serial2RxCount BUFCOUNT
  dsimp only
  split
  · rw [Nat.mod_eq_of_lt (by omega), Nat.mod_eq_of_lt (by omega)]
    omega
  · rw [Nat.mod_eq_of_lt (by omega), Nat.mod_eq_of_lt (by omega)]
    omega

set_option maxRecDepth 20000 in
/-- C21, evaluated where the code departs from it: with `RX_BUFFER_SIZE = 16`
and an empty `rxbuf`, `serialRxFree()` is 16 and the count is 0 (their sum is
16, not 15); 15 further ordinary bytes are all stored without `overflow`, and
the 16th is turned away and sets `rxbuf.overflow`. On the second port
`serial2RxFree()` is 15 for the empty buffer. -/
theorem C21_serialRxFree_one_too_many :
    serialRxFree 16 (exampleState 0 0 0 0) = 16
      ∧ ringCount 16 (exampleState 0 0 0 0).rxbuf.head (exampleState 0 0 0 0).rxbuf.tail = 0
      ∧ (rxEvents 16 16 ((List.range 15).map (fun i => (0x20, 0x41 + i)))
          (exampleState 0 0 0 0)).rxbuf.overflow = false
      ∧ ringCount 16
          (rxEvents 16 16 ((List.range 15).map (fun i => (0x20, 0x41 + i)))
            (exampleState 0 0 0 0)).rxbuf.head
          (rxEvents 16 16 ((List.range 15).map (fun i => (0x20, 0x41 + i)))
            (exampleState 0 0 0 0)).rxbuf.tail = 15
      ∧ (rxEvents 16 16 ((List.range 16).map (fun i => (0x20, 0x41 + i)))
          (exampleState 0 0 0 0)).rxbuf.overflow = true
      ∧ serial2RxFree 16 (exampleState 0 0 0 0) = 15 := by
  decide

/-! ## Writes to the interrupt-clear register -/

/-- The only write `USART_IRQHandler` makes to `ICR` is `ICR & ORECF`, when `ORE`
is set in `ISR`. -/
theorem USART_IRQHandler_icrWrites (N M : Nat) (s : State W) :
    (USART_IRQHandler N M s).USART.icrWrites
      = (if flagSet s.USART.ISR USART_ISR_ORE = true
          then s.USART.icrWrites ++ [s.USART.ICR &&& USART_ICR_ORECF]
          else s.USART.icrWrites) := by
  have hrx : (USART_IRQHandler_rx N s).USART.ISR = s.USART.ISR
      ∧ (USART_IRQHandler_rx N s).USART.ICR = s.USART.ICR
      ∧ (USART_IRQHandler_rx N s).USART.icrWrites = s.USART.icrWrites := by
    unfold USART_IRQHandler_rx
    split
    · dsimp only
      split
      · split <;> exact ⟨rfl, rfl, rfl⟩
      · exact ⟨rfl, rfl, rfl⟩
    · exact ⟨rfl, rfl, rfl⟩
  have htx : ∀ t : State W, (USART_IRQHandler_tx M t).USART.ISR = t.USART.ISR
      ∧ (USART_IRQHandler_tx M t).USART.ICR = t.USART.ICR
      ∧ (USART_IRQHandler_tx M t).USART.icrWrites = t.USART.icrWrites := by
    intro t
    unfold USART_IRQHandler_tx
    split
    · dsimp only
      split <;> exact ⟨rfl, rfl, rfl⟩
    · exact ⟨rfl, rfl, rfl⟩
  obtain ⟨a1, a2, a3⟩ := hrx
  obtain ⟨b1, b2, b3⟩ := htx (USART_IRQHandler_rx N s)
  unfold USART_IRQHandler USART_IRQHandler_ore
  rw [b1, a1]
  split
  · dsimp only
    rw [b2, a2, b3, a3]
  · rw [b3, a3]

/-- The writes `UART2_IRQHandler` makes to `ICR`: `ICR & FECF` when `FE` is set in
`ISR`, and then always the value of `ISR`, which carries the `FE` and `ORE` bits
at the positions of `FECF` and `ORECF`. -/
theorem UART2_IRQHandler_icrWrites (N M : Nat) (s : State W) :
    (UART2_IRQHandler N M s).UART2.icrWrites
      = (if flagSet s.UART2.ISR USART_ISR_FE = true
          then s.UART2.icrWrites ++ [s.UART2.ICR &&& USART_ICR_FECF]
          else s.UART2.icrWrites) ++ [s.UART2.ISR]
      ∧ flagSet s.UART2.ISR USART_ICR_FECF = flagSet s.UART2.ISR USART_ISR_FE
      ∧ flagSet s.UART2.ISR USART_ICR_ORECF = flagSet s.UART2.ISR USART_ISR_ORE := by
  have hrx : (UART2_IRQHandler_rx N s).UART2.ISR = s.UART2.ISR
      ∧ (UART2_IRQHandler_rx N s).UART2.ICR = s.UART2.ICR
      ∧ (UART2_IRQHandler_rx N s).UART2.icrWrites = s.UART2.icrWrites := by
    unfold UART2_IRQHandler_rx
    split
    · dsimp only
      split
      · exact ⟨rfl, rfl, rfl⟩
      · split <;> exact ⟨rfl, rfl, rfl⟩
    · exact ⟨rfl, rfl, rfl⟩
  have htx : ∀ t : State W, (UART2_IRQHandler_tx M t).UART2.ISR = t.UART2.ISR
      ∧ (UART2_IRQHandler_tx M t).UART2.ICR = t.UART2.ICR
      ∧ (UART2_IRQHandler_tx M t).UART2.icrWrites = t.UART2.icrWrites := by
    intro t
    unfold UART2_IRQHandler_tx
    split
    · dsimp only
      split <;> split <;> exact ⟨rfl, rfl, rfl⟩
    · exact ⟨rfl, rfl, rfl⟩
  obtain ⟨a1, a2, a3⟩ := hrx
  obtain ⟨b1, b2, b3⟩ := htx (UART2_IRQHandler_rx N s)
  refine ⟨?_, rfl, rfl⟩
  unfold UART2_IRQHandler UART2_IRQHandler_err
  dsimp only
  rw [b1, a1]
  split
  · dsimp only
    rw [b2, a2, b3, a3]
  · rw [b1, a1, b3, a3]

/-- C22, evaluated where the code departs from it: with `ORE` set in `ISR` and
`ICR` reading as 0, one invocation of `USART_IRQHandler` makes exactly one write
to `ICR`, of the value 0, in which `ORECF` is not set; the same with `RXNE` set
as well. With only `FE` set the first port's routine writes nothing to `ICR`. -/
theorem C22_overrun_write_is_zero :
    flagSet overrunState.USART.ISR USART_ISR_ORE = true
      ∧ overrunState.USART.ICR = 0
      ∧ (USART_IRQHandler 16 16 overrunState).USART.icrWrites = [0]
      ∧ flagSet 0 USART_ICR_ORECF = false
      ∧ (USART_IRQHandler 16 16
          { overrunState with USART := { overrunState.USART with
              ISR := USART_ISR_ORE ||| USART_ISR_RXNE, RDR := 0x41 } }).USART.icrWrites = [0]
      ∧ (USART_IRQHandler 16 16
          { overrunState with USART := { overrunState.USART with
              ISR := USART_ISR_FE } }).USART.icrWrites = [] := by
  decide

/-! ## The transmit path end to end -/

theorem flagSet_or_TXEIE (r : Nat) : flagSet (r ||| USART_CR1_TXEIE) USART_CR1_TXEIE = true := by
  rw [USART_CR1_TXEIE_eq, flagSet_two_pow, or_two_pow_testBit]
  simp

theorem flagSet_clear_TXEIE (r : Nat) :
    flagSet (clearMask r USART_CR1_TXEIE) USART_CR1_TXEIE = false := by
  rw [USART_CR1_TXEIE_eq, flagSet_two_pow, clearMask_testBit _ _ _ (by decide)]
  simp

/-- Bytes written one after the other into a transmit buffer with room for
them: every call returns true without the callback, the queue grows by the
bytes in order, and `TXEIE` is set once a byte has been written. -/
theorem serialPutCs_enqueue (m fuel : Nat) (cb : W → Bool × W) (cs : List Nat) (s : State W)
    (hh : s.txbuf.head < 2 ^ m) (ht : s.txbuf.tail < 2 ^ m)
    (hroom : ringCount (2 ^ m) s.txbuf.head s.txbuf.tail + cs.length ≤ 2 ^ m - 1)
    (hc : ∀ c ∈ cs, c < 256) :
    ∃ s1, serialPutCs (2 ^ m) cb (fuel + 1) cs s = some (List.replicate cs.length true, s1)
      ∧ s1.world = s.world
      ∧ ringList (2 ^ m) s1.txbuf.data s1.txbuf.head s1.txbuf.tail
          = ringList (2 ^ m) s.txbuf.data s.txbuf.head s.txbuf.tail ++ cs
      ∧ s1.txbuf.tail = s.txbuf.tail
      ∧ s1.txbuf.head < 2 ^ m
      ∧ s1.USART.tdrWrites = s.USART.tdrWrites
      ∧ (flagSet s.USART.CR1 USART_CR1_TXEIE = true ∨ cs ≠ [] →
          flagSet s1.USART.CR1 USART_CR1_TXEIE = true) := by
  have hN : 0 < 2 ^ m := Nat.two_pow_pos m
  induction cs generalizing s with
  | nil =>
    refine ⟨s, rfl, rfl, by simp, rfl, hh, rfl, ?_⟩
    intro h
    rcases h with h | h
    · exact h
    · exact absurd rfl h
  | cons c rest ih =>
    have hclt := hc c (List.mem_cons_self _ _)
    have hfree : s.txbuf.tail ≠ BUFNEXT (2 ^ m) s.txbuf.head := by
      intro hfull
      rw [BUFNEXT_pow] at hfull
      have := ringCount_full (2 ^ m) s.txbuf.head s.txbuf.tail hh ht hfull
      simp only [List.length_cons] at hroom
      omega
    have hput := serialPutC_free (2 ^ m) fuel c cb s hfree
    rw [BUFNEXT_pow] at hfree hput
    have hcnt := ringCount_next_head (2 ^ m) s.txbuf.head s.txbuf.tail hh ht hfree
    have hlist := ringList_push (2 ^ m) s.txbuf.data s.txbuf.head s.txbuf.tail (c % 256)
      hh ht hfree
    rw [Nat.mod_eq_of_lt hclt] at hlist
    simp only [List.length_cons] at hroom
    obtain ⟨s1, h1, h2, h3, h4, h5, h6, h7⟩ := ih
      { s with
        txbuf := { s.txbuf with data := store s.txbuf.data s.txbuf.head (c % 256),
                                head := (s.txbuf.head + 1) % 2 ^ m },
        USART := { s.USART with CR1 := s.USART.CR1 ||| USART_CR1_TXEIE } }
      (Nat.mod_lt _ hN) ht (by dsimp only; omega)
      (fun x hx => hc x (List.mem_cons_of_mem _ hx))
    refine ⟨s1, ?_, h2, ?_, h4, h5, h6, ?_⟩
    · simp only [serialPutCs, hput, h1, List.length_cons, List.replicate_succ]
    · rw [h3]
      dsimp only
      rw [Nat.mod_eq_of_lt hclt, hlist, List.append_assoc]
      rfl
    · intro _
      exact h7 (Or.inl (flagSet_or_TXEIE _))

/-- One transmit-ready invocation on a non-empty, armed buffer. -/
theorem rxEvent_tx_step (m N : Nat) (ev : Nat × Nat) (t : State W)
    (htxe : flagSet ev.1 USART_ISR_TXE = true)
    (harm : flagSet t.USART.CR1 USART_CR1_TXEIE = true) :
    (rxEvent N (2 ^ m) ev t).txbuf = { t.txbuf with tail := (t.txbuf.tail + 1) % 2 ^ m }
      ∧ (rxEvent N (2 ^ m) ev t).USART.tdrWrites
          = t.USART.tdrWrites ++ [t.txbuf.data t.txbuf.tail]
      ∧ (rxEvent N (2 ^ m) ev t).USART.CR1
          = (if (t.txbuf.tail + 1) % 2 ^ m = t.txbuf.head
              then clearMask t.USART.CR1 USART_CR1_TXEIE else t.USART.CR1) := by
  obtain ⟨e1, e2, e3⟩ := USART_IRQHandler_tx_effect N (2 ^ m)
    { t with USART := { t.USART with ISR := ev.1, RDR := ev.2 } }
  dsimp only at e1 e2 e3
  have hboth : (flagSet ev.1 USART_ISR_TXE && flagSet t.USART.CR1 USART_CR1_TXEIE) = true := by
    rw [htxe, harm]
    rfl
  rw [if_pos hboth, BUFNEXT_pow] at e1 e3
  rw [if_pos hboth] at e2
  unfold rxEvent
  exact ⟨e1, e2, e3⟩

/-- Transmit-ready invocations on a buffer whose interrupt is armed exactly
when it is non-empty: the oldest queued bytes go to `TDR` in order, the queue
shrinks accordingly, and the interrupt stays armed exactly while bytes remain. -/
theorem rxEvents_tx_drain (m N : Nat) (evs : List (Nat × Nat)) (t : State W)
    (hh : t.txbuf.head < 2 ^ m) (ht : t.txbuf.tail < 2 ^ m)
    (hlen : evs.length ≤ ringCount (2 ^ m) t.txbuf.head t.txbuf.tail)
    (htxe : ∀ ev ∈ evs, flagSet ev.1 USART_ISR_TXE = true)
    (harm : flagSet t.USART.CR1 USART_CR1_TXEIE
      = decide (0 < ringCount (2 ^ m) t.txbuf.head t.txbuf.tail)) :
    (rxEvents N (2 ^ m) evs t).USART.tdrWrites
        = t.USART.tdrWrites
          ++ (ringList (2 ^ m) t.txbuf.data t.txbuf.head t.txbuf.tail).take evs.length
      ∧ ringCount (2 ^ m) (rxEvents N (2 ^ m) evs t).txbuf.head
          (rxEvents N (2 ^ m) evs t).txbuf.tail
        = ringCount (2 ^ m) t.txbuf.head t.txbuf.tail - evs.length
      ∧ (rxEvents N (2 ^ m) evs t).txbuf.head = t.txbuf.head
      ∧ (rxEvents N (2 ^ m) evs t).txbuf.tail < 2 ^ m
      ∧ flagSet (rxEvents N (2 ^ m) evs t).USART.CR1 USART_CR1_TXEIE
        = decide (0 < ringCount (2 ^ m) (rxEvents N (2 ^ m) evs t).txbuf.head
            (rxEvents N (2 ^ m) evs t).txbuf.tail) := by
  have hN : 0 < 2 ^ m := Nat.two_pow_pos m
  induction evs generalizing t with
  | nil => exact ⟨by simp [rxEvents], by simp [rxEvents], rfl, ht, harm⟩
  | cons ev rest ih =>
    simp only [List.length_cons] at hlen
    have hpos : 0 < ringCount (2 ^ m) t.txbuf.head t.txbuf.tail := by omega
    have hne : t.txbuf.tail ≠ t.txbuf.head := by
      intro heq
      rw [heq, ringCount_self _ _ hh] at hpos
      omega
    have hset : flagSet t.USART.CR1 USART_CR1_TXEIE = true := by
      rw [harm]
      exact decide_eq_true hpos
    obtain ⟨s1, s2, s3⟩ := rxEvent_tx_step m N ev t (htxe ev (List.mem_cons_self _ _)) hset
    have hcnt := ringCount_next_tail (2 ^ m) t.txbuf.head t.txbuf.tail hh ht hne
    have hpop := ringList_pop (2 ^ m) t.txbuf.data t.txbuf.head t.txbuf.tail hh ht hne
    have hlt : (t.txbuf.tail + 1) % 2 ^ m < 2 ^ m := Nat.mod_lt _ hN
    have harm1 : flagSet (rxEvent N (2 ^ m) ev t).USART.CR1 USART_CR1_TXEIE
        = decide (0 < ringCount (2 ^ m) (rxEvent N (2 ^ m) ev t).txbuf.head
            (rxEvent N (2 ^ m) ev t).txbuf.tail) := by
      rw [s1, s3]
      dsimp only
      by_cases hemp : (t.txbuf.tail + 1) % 2 ^ m = t.txbuf.head
      · rw [if_pos hemp, flagSet_clear_TXEIE, hemp, ringCount_self _ _ hh]
        rfl
      · rw [if_neg hemp, hset]
        have hpos1 : 0 < ringCount (2 ^ m) t.txbuf.head ((t.txbuf.tail + 1) % 2 ^ m) := by
          by_contra hz
          exact hemp (ringCount_eq_zero _ _ _ hh hlt (by omega)).symm
        exact (decide_eq_true hpos1).symm
    obtain ⟨i1, i2, i3, i4, i5⟩ := ih (rxEvent N (2 ^ m) ev t)
      (by rw [s1]; exact hh) (by rw [s1]; exact hlt)
      (by rw [s1]; dsimp only; omega)
      (fun x hx => htxe x (List.mem_cons_of_mem _ hx)) harm1
    simp only [rxEvents, List.length_cons]
    refine ⟨?_, ?_, ?_, i4, i5⟩
    · rw [i1, s2, s1]
      dsimp only
      rw [hpop, List.take_succ_cons, List.append_assoc]
      rfl
    · rw [i2, s1]
      dsimp only
      omega
    · rw [i3, s1]

/-- C23: the TX path is FIFO end to end. For `M = 2 ^ m`, an empty transmit
buffer at any index position and at most `M - 1` bytes `c1..ck`: the calls
`serialPutC(c1)`, ..., `serialPutC(ck)` all return true with the external state
untouched (the callback is not consulted); `k` invocations of
`USART_IRQHandler` with `TXE` set then write exactly `c1, ..., ck` to `TDR` in
that order; `TXEIE` is set after fewer than `k` of them and clear after the
`k`-th, and the buffer is empty again. -/
theorem C23_tx_fifo (m N fuel : Nat) (cb : W → Bool × W) (s : State W) (cs : List Nat)
    (evs : List (Nat × Nat))
    (hhead : s.txbuf.head < 2 ^ m) (hempty : s.txbuf.tail = s.txbuf.head)
    (hk : cs.length ≤ 2 ^ m - 1) (hc : ∀ c ∈ cs, c < 256)
    (hlen : evs.length = cs.length)
    (htxe : ∀ ev ∈ evs, flagSet ev.1 USART_ISR_TXE = true) :
    ∃ s1, serialPutCs (2 ^ m) cb (fuel + 1) cs s = some (List.replicate cs.length true, s1)
      ∧ s1.world = s.world
      ∧ (rxEvents N (2 ^ m) evs s1).USART.tdrWrites = s.USART.tdrWrites ++ cs
      ∧ (∀ j, j < cs.length →
          flagSet (rxEvents N (2 ^ m) (evs.take j) s1).USART.CR1 USART_CR1_TXEIE = true)
      ∧ (0 < cs.length →
          flagSet (rxEvents N (2 ^ m) evs s1).USART.CR1 USART_CR1_TXEIE = false)
      ∧ (rxEvents N (2 ^ m) evs s1).txbuf.tail = (rxEvents N (2 ^ m) evs s1).txbuf.head := by
  have htail : s.txbuf.tail < 2 ^ m := by rw [hempty]; exact hhead
  have hc0 : ringCount (2 ^ m) s.txbuf.head s.txbuf.tail = 0 := by
    rw [hempty]; exact ringCount_self _ _ hhead
  have hl0 : ringList (2 ^ m) s.txbuf.data s.txbuf.head s.txbuf.tail = [] := by
    rw [hempty]; exact ringList_self _ _ _ hhead
  obtain ⟨s1, p1, p2, p3, p4, p5, p6, p7⟩ := serialPutCs_enqueue m fuel cb cs s hhead htail
    (by rw [hc0]; omega) hc
  rw [hl0, List.nil_append] at p3
  have ht1 : s1.txbuf.tail < 2 ^ m := by rw [p4]; exact htail
  have hcnt1 : ringCount (2 ^ m) s1.txbuf.head s1.txbuf.tail = cs.length := by
    rw [← ringList_length (2 ^ m) s1.txbuf.data, p3]
  refine ⟨s1, p1, p2, ?_⟩
  cases cs with
  | nil =>
    have hev : evs = [] := List.eq_nil_of_length_eq_zero hlen
    subst hev
    simp only [serialPutCs, List.length_nil, List.replicate_zero, Option.some.injEq,
      Prod.mk.injEq, true_and] at p1
    subst p1
    refine ⟨by simp [rxEvents], ?_, ?_, hempty⟩
    · intro j hj
      exact absurd hj (Nat.not_lt_zero _)
    · intro h
      exact absurd h (Nat.lt_irrefl _)
  | cons c rest =>
    have harm1 : flagSet s1.USART.CR1 USART_CR1_TXEIE
        = decide (0 < ringCount (2 ^ m) s1.txbuf.head s1.txbuf.tail) := by
      rw [p7 (Or.inr (List.cons_ne_nil _ _)), hcnt1]
      simp
    obtain ⟨d1, d2, d3, d4, d5⟩ := rxEvents_tx_drain m N evs s1 p5 ht1
      (by rw [hcnt1, hlen]) htxe harm1
    rw [hcnt1, hlen, Nat.sub_self] at d2
    refine ⟨?_, ?_, ?_, ?_⟩
    · rw [d1, p3, p6, hlen, List.take_length]
    · intro j hj
      obtain ⟨_, f2, _, _, f5⟩ := rxEvents_tx_drain m N (evs.take j) s1 p5 ht1
        (by rw [hcnt1, List.length_take]; omega)
        (fun ev h => htxe ev (List.mem_of_mem_take h)) harm1
      rw [f5, f2, hcnt1, List.length_take, hlen]
      apply decide_eq_true
      omega
    · intro _
      rw [d5, d2]
      rfl
    · exact (ringCount_eq_zero _ _ _ (by rw [d3]; exact p5) d4 d2).symm

/-- An instance of `C23_tx_fifo`: `M = 4`, the transmit buffer empty at index 3
(so the writes wrap around), the bytes `0x41, 0x42, 0x43` and three
invocations with `TXE` set. -/
theorem C23_tx_fifo_witness :
    ∃ s1, serialPutCs (2 ^ 2) declineAndCount (0 + 1) [0x41, 0x42, 0x43] (exampleState 0 0 3 3)
        = some (List.replicate 3 true, s1)
      ∧ s1.world = 0
      ∧ (rxEvents 4 (2 ^ 2) [(0x80, 0), (0x80, 0), (0xA0, 0x61)] s1).USART.tdrWrites
          = [] ++ [0x41, 0x42, 0x43]
      ∧ (∀ j, j < 3 →
          flagSet (rxEvents 4 (2 ^ 2) ([(0x80, 0), (0x80, 0), (0xA0, 0x61)].take j)
            s1).USART.CR1 USART_CR1_TXEIE = true)
      ∧ (0 < 3 →
          flagSet (rxEvents 4 (2 ^ 2) [(0x80, 0), (0x80, 0), (0xA0, 0x61)] s1).USART.CR1
            USART_CR1_TXEIE = false)
      ∧ (rxEvents 4 (2 ^ 2) [(0x80, 0), (0x80, 0), (0xA0, 0x61)] s1).txbuf.tail
          = (rxEvents 4 (2 ^ 2) [(0x80, 0), (0x80, 0), (0xA0, 0x61)] s1).txbuf.head :=
  C23_tx_fifo 2 4 0 declineAndCount (exampleState 0 0 3 3) [0x41, 0x42, 0x43]
    [(0x80, 0), (0x80, 0), (0xA0, 0x61)] (by decide) rfl (by decide) (by decide) rfl
    (by decide)

/-! ## The transmit interrupt is armed only on a non-empty buffer -/

theorem USART_CR1_RXNEIE_eq : USART_CR1_RXNEIE = 2 ^ 5 := by decide

theorem serialPutC_armed (M fuel c : Nat) (cb : W → Bool × W) (s : State W)
    (r : Bool × State W) (hI : armedNonEmpty s) (h : serialPutC M cb fuel c s = some r) :
    armedNonEmpty r.2 := by
  obtain ⟨w, hr | ⟨hfree, hr⟩⟩ := serialPutC_result M fuel c cb s r h
  · rw [hr]
    exact hI
  · rw [hr]
    intro _
    exact hfree

theorem serialWriteS_armed (M fuel : Nat) (cb : W → Bool × W) (str : List Nat)
    (st st1 : State W) (hI : armedNonEmpty st) (h : serialWriteS M cb fuel str st = some st1) :
    armedNonEmpty st1 := by
  induction str generalizing st with
  | nil =>
    cases h
    exact hI
  | cons c rest ih =>
    unfold serialWriteS at h
    by_cases hz : c % 256 = 0
    · rw [if_pos hz] at h
      cases h
      exact hI
    · rw [if_neg hz] at h
      cases hp : serialPutC M cb fuel c st with
      | none =>
        rw [hp] at h
        cases h
      | some r =>
        rw [hp] at h
        exact ih r.2 (serialPutC_armed M fuel c cb st r hI hp) h

theorem serialWrite_armed (M fuel : Nat) (cb : W → Bool × W) (str : List Nat) (length : Nat)
    (st st1 : State W) (hI : armedNonEmpty st)
    (h : serialWrite M cb fuel str length st = some st1) : armedNonEmpty st1 := by
  induction length generalizing st str with
  | zero =>
    cases h
    exact hI
  | succ n ih =>
    unfold serialWrite at h
    cases hp : serialPutC M cb fuel (str.headD 0) st with
    | none =>
      rw [hp] at h
      cases h
    | some r =>
      rw [hp] at h
      exact ih str.tail r.2 (serialPutC_armed M fuel _ cb st r hI hp) h

theorem serialDisable_armed (d : Bool) (s : State W) (hI : armedNonEmpty s) :
    armedNonEmpty (serialDisable d s).2 := by
  have hclr : flagSet (clearMask s.USART.CR1 USART_CR1_RXNEIE) USART_CR1_TXEIE
      = flagSet s.USART.CR1 USART_CR1_TXEIE := by
    rw [USART_CR1_RXNEIE_eq, USART_CR1_TXEIE_eq, flagSet_two_pow, flagSet_two_pow,
      clearMask_testBit _ _ _ (by decide)]
    simp
  have hset : flagSet (s.USART.CR1 ||| USART_CR1_RXNEIE) USART_CR1_TXEIE
      = flagSet s.USART.CR1 USART_CR1_TXEIE := by
    rw [USART_CR1_RXNEIE_eq, USART_CR1_TXEIE_eq, flagSet_two_pow, flagSet_two_pow,
      or_two_pow_testBit]
    simp
  unfold serialDisable
  cases d with
  | true =>
    intro h
    have h1 : flagSet (clearMask s.USART.CR1 USART_CR1_RXNEIE) USART_CR1_TXEIE = true := h
    rw [hclr] at h1
    exact hI h1
  | false =>
    intro h
    have h1 : flagSet (s.USART.CR1 ||| USART_CR1_RXNEIE) USART_CR1_TXEIE = true := h
    rw [hset] at h1
    exact hI h1

theorem USART_IRQHandler_armed (N M : Nat) (s : State W) (hI : armedNonEmpty s) :
    armedNonEmpty (USART_IRQHandler N M s) := by
  obtain ⟨e1, _, e3⟩ := USART_IRQHandler_tx_effect N M s
  unfold armedNonEmpty
  rw [e1, e3]
  by_cases hboth : (flagSet s.USART.ISR USART_ISR_TXE && flagSet s.USART.CR1 USART_CR1_TXEIE) = true
  · rw [if_pos hboth, if_pos hboth]
    by_cases hemp : BUFNEXT M s.txbuf.tail = s.txbuf.head
    · rw [if_pos hemp, flagSet_clear_TXEIE]
      intro h
      cases h
    · rw [if_neg hemp]
      intro _
      exact hemp
  · rw [if_neg hboth, if_neg hboth]
    exact hI

theorem serialInit_disarmed (div : Nat → Nat → Nat) (pclk baud_rate : Nat) (s : State W) :
    flagSet (serialInit div pclk baud_rate s).USART.CR1 USART_CR1_TXEIE = false
      ∧ (serialInit div pclk baud_rate s).txbuf.tail
        = (serialInit div pclk baud_rate s).txbuf.head := by
  constructor
  · show flagSet (USART_CR1_RE ||| USART_CR1_TE ||| (USART_CR1_UE ||| USART_CR1_RXNEIE))
      USART_CR1_TXEIE = false
    decide
  · rfl

theorem port1Step_armed (N M : Nat) (op : Port1Op W) (s s1 : State W)
    (hI : armedNonEmpty s) (h : port1Step N M op s = some s1) : armedNonEmpty s1 := by
  cases op with
  | putC cb fuel c =>
    simp only [port1Step, Option.map_eq_some'] at h
    obtain ⟨r, hr, hs⟩ := h
    rw [← hs]
    exact serialPutC_armed M fuel c cb s r hI hr
  | writeS cb fuel str => exact serialWriteS_armed M fuel cb str s s1 hI h
  | write cb fuel str length => exact serialWrite_armed M fuel cb str length s s1 hI h
  | setBaudRate div pclk baud_rate =>
    simp only [port1Step, Option.some.injEq] at h
    rw [← h]
    intro hset
    have hclr := (serialInit_disarmed div pclk baud_rate s).1
    unfold serialInit at hclr
    rw [hclr] at hset
    cases hset
  | disable d =>
    simp only [port1Step, Option.some.injEq] at h
    rw [← h]
    exact serialDisable_armed d s hI
  | rxFlush =>
    simp only [port1Step, Option.some.injEq] at h
    rw [← h]
    exact hI
  | rxCancel =>
    simp only [port1Step, Option.some.injEq] at h
    rw [← h]
    exact hI
  | getC =>
    simp only [port1Step, Option.some.injEq] at h
    rw [← h]
    unfold serialGetC
    dsimp only
    split
    · exact hI
    · exact hI
  | irq isr rdr icr =>
    simp only [port1Step, Option.some.injEq] at h
    rw [← h]
    exact USART_IRQHandler_armed N M _ hI

theorem port1Run_armed (N M : Nat) (ops : List (Port1Op W)) (s t : State W)
    (hI : armedNonEmpty s) (h : port1Run N M ops s = some t) : armedNonEmpty t := by
  induction ops generalizing s with
  | nil =>
    cases h
    exact hI
  | cons op rest ih =>
    unfold port1Run at h
    cases hs : port1Step N M op s with
    | none =>
      rw [hs] at h
      cases h
    | some s1 =>
      rw [hs] at h
      exact ih s1 (port1Step_armed N M op s s1 hI hs) h

/-- C24: the transmit interrupt is never armed on an empty buffer. `serialInit`
leaves `TXEIE` clear and `txbuf` empty; and in every state reached from there by
a finite sequence of first-port operations (`serialPutC` with any callback,
`serialWriteS`, `serialWrite`, `serialSetBaudRate`, `serialDisable`,
`serialRxFlush`, `serialRxCancel`, `serialGetC`, `USART_IRQHandler` with any
register values), if `TXEIE` is set in `USART->CR1` then
`txbuf.tail != txbuf.head`; so when the buffer is empty an invocation of
`USART_IRQHandler`, whatever the flags, writes nothing to `TDR` and leaves
`txbuf` (tail included) as it is. -/
theorem C24_tx_interrupt_armed_only_nonempty (N M : Nat) (div : Nat → Nat → Nat)
    (pclk baud_rate : Nat) (s0 : State W) (ops : List (Port1Op W)) (t : State W)
    (hrun : port1Run N M ops (serialInit div pclk baud_rate s0) = some t) :
    (flagSet (serialInit div pclk baud_rate s0).USART.CR1 USART_CR1_TXEIE = false
        ∧ (serialInit div pclk baud_rate s0).txbuf.tail
          = (serialInit div pclk baud_rate s0).txbuf.head)
      ∧ (flagSet t.USART.CR1 USART_CR1_TXEIE = true → t.txbuf.tail ≠ t.txbuf.head)
      ∧ ∀ isr rdr icr, t.txbuf.tail = t.txbuf.head →
          (USART_IRQHandler N M
              { t with USART := { t.USART with ISR := isr, RDR := rdr, ICR := icr } }).USART.tdrWrites
            = t.USART.tdrWrites
          ∧ (USART_IRQHandler N M
              { t with USART := { t.USART with ISR := isr, RDR := rdr, ICR := icr } }).txbuf
            = t.txbuf := by
  have hinit := serialInit_disarmed div pclk baud_rate s0
  have hI0 : armedNonEmpty (serialInit div pclk baud_rate s0) := by
    intro h
    rw [hinit.1] at h
    cases h
  have hI : armedNonEmpty t := port1Run_armed N M ops _ t hI0 hrun
  refine ⟨hinit, hI, ?_⟩
  intro isr rdr icr hemp
  have hclr : flagSet t.USART.CR1 USART_CR1_TXEIE = false := by
    cases hf : flagSet t.USART.CR1 USART_CR1_TXEIE with
    | false => rfl
    | true => exact absurd hemp (hI hf)
  obtain ⟨e1, e2, _⟩ := USART_IRQHandler_tx_effect N M
    { t with USART := { t.USART with ISR := isr, RDR := rdr, ICR := icr } }
  dsimp only at e1 e2
  have hboth : ¬ (flagSet isr USART_ISR_TXE && flagSet t.USART.CR1 USART_CR1_TXEIE) = true := by
    rw [hclr]
    simp
  rw [if_neg hboth] at e1 e2
  exact ⟨e2, e1⟩

/-- An instance of `C24_tx_interrupt_armed_only_nonempty`: `N = M = 4`; after
`serialInit` two bytes are written, the receive interrupt is disabled, three
transmit-ready interrupts follow (the third finds the buffer drained), then a
read and a write to the drained buffer. -/
theorem C24_tx_interrupt_armed_only_nonempty_witness :
    ∃ t, port1Run 4 4 examplePort1Ops
        (serialInit (fun p b => (p + b / 2) / b) 54000000 115200 (exampleState 0 0 0 0))
          = some t
      ∧ (flagSet t.USART.CR1 USART_CR1_TXEIE = true → t.txbuf.tail ≠ t.txbuf.head) := by
  have h : (port1Run 4 4 examplePort1Ops
      (serialInit (fun p b => (p + b / 2) / b) 54000000 115200
        (exampleState 0 0 0 0))).isSome = true := by decide
  exact ⟨_, (Option.some_get h).symm,
    (C24_tx_interrupt_armed_only_nonempty 4 4 (fun p b => (p + b / 2) / b) 54000000 115200
      (exampleState 0 0 0 0) examplePort1Ops _ (Option.some_get h).symm).2.1⟩

end Serial
